import Mathlib

/-!
# ExchangeGateway: order validation, market resolution, decimal truncation, retry

A shallow embedding of `src/exchangeUtils.js` and of the order path of
`src/ExchangeAPI.js`.

Conventions of the embedding.

* A JavaScript number is `NaN`, an infinity, or a finite value given as an exact
  rational; the finite doubles are the rationals `m * 2^e` with `|m| < 2^53` and
  `-1074 ≤ e ≤ 971`. The two zeros are one value. Reading a decimal string
  rounds it to the nearest double, ties to even. Timer delays and the fields of
  the retry options are finite numbers, given as rationals.
* A property that may be absent (`undefined`) is an `Option`; a call that may
  throw returns an `Option`, `none` standing for the exception.
* Process-wide globals (`global.MARKET`, `global.DEFAULT_OK_RESPONSE`, ...) are
  explicit parameters.
* Asynchronous code is embedded as the ordered trace of the effects it performs
  (operation invoked, timer armed, callback called, connector called).
* Calls to the logging sink (`logInfo`, `logError`, `console.log`) are not
  recorded in traces.
-/

set_option linter.unusedVariables false

namespace ExchangeGateway

/-! ## Numbers -/

/-- A JavaScript number. -/
inductive JSNumber where
  | nan
  | infinity (negative : Bool)
  | finite (value : ℚ)
  deriving DecidableEq

/-- The operator `<` on numbers: false as soon as one side is `NaN`. -/
def JSNumber.lt : JSNumber → JSNumber → Bool
  | .nan, _ => false
  | _, .nan => false
  | .infinity a, .infinity b => a && !b
  | .infinity a, .finite _ => a
  | .finite _, .infinity b => !b
  | .finite a, .finite b => decide (a < b)

/-- The operator `>=` on numbers: false as soon as one side is `NaN`, and the
negation of `<` otherwise. -/
def JSNumber.ge : JSNumber → JSNumber → Bool
  | .nan, _ => false
  | _, .nan => false
  | a, b => !(JSNumber.lt a b)

/-- The finite doubles: `m * 2^e` with a 53-bit `m` and `-1074 ≤ e ≤ 971`. -/
def IsDouble (q : ℚ) : Prop :=
  ∃ m e : ℤ, |m| < 2 ^ 53 ∧ -1074 ≤ e ∧ e ≤ 971 ∧ q = m * (2 : ℚ) ^ e

/-- A number a program can hold: `NaN`, an infinity, or a finite double. -/
def JSNumber.IsDouble : JSNumber → Prop
  | .finite q => ExchangeGateway.IsDouble q
  | _ => True

/-- Rounding to the nearest integer, ties to the even one. -/
def roundHalfEven (t : ℚ) : ℤ :=
  if t - ⌊t⌋ < 1 / 2 then ⌊t⌋
  else if 1 / 2 < t - ⌊t⌋ then ⌊t⌋ + 1
  else if ⌊t⌋ % 2 = 0 then ⌊t⌋ else ⌊t⌋ + 1

/-- The exponent of the unit in the last place of the doubles around `q > 0`:
53 significant bits, and never below the subnormal exponent `-1074`. -/
def doubleExponent (q : ℚ) : ℤ :=
  max (Int.log 2 q - 52) (-1074)

/-- The double nearest to `q ≥ 0`, ties to even, for `q` below the overflow
threshold. -/
def roundToDouble (q : ℚ) : ℚ :=
  roundHalfEven (q / (2 : ℚ) ^ doubleExponent q) * (2 : ℚ) ^ doubleExponent q

/-- The threshold from which rounding to nearest gives an infinity: half a unit
in the last place above the largest double `2^1024 - 2^971`. -/
def overflowThreshold : ℚ :=
  (2 : ℚ) ^ 1024 - (2 : ℚ) ^ 970

/-! ## Data model -/

/-- The `minimalOrder` record of a market. -/
structure MinimalOrder where
  amount : JSNumber
  deriving DecidableEq

/-- One entry of `exchangeProperties.markets`. `pair` is the JavaScript array of
symbols; `_.first` and `_.last` read its two ends. -/
structure Market where
  pair : List String
  minimalOrder : MinimalOrder
  maxDecimals : ℕ
  deriving DecidableEq

/-- The snapshot returned by the connector's `getExchangeProperties()`. -/
structure ExchangeProperties where
  markets : List Market
  deriving DecidableEq

/-- The active market, `global.MARKET`. -/
structure MarketId where
  assetA : String
  assetB : String
  deriving DecidableEq

/-- The part of a connector that `isValidOrder` looks at: the two optional
predicates. `none` is a connector on which `_.isFunction(api.isValidX)` is
false. -/
structure Api where
  isValidPrice : Option (JSNumber → Bool)
  isValidLot : Option (JSNumber → JSNumber → Bool)

/-- The object returned by `isValidOrder`: `reason` is `false` (here `none`) or a
string. -/
structure ValidationResult where
  reason : Option String
  valid : Bool
  deriving DecidableEq

/-! ## `isValidOrder` (exchangeUtils.js, lines 43-70) -/

/-- JavaScript truthiness of a value that is `false` or a string. -/
def truthy : Option String → Bool
  | none => false
  | some s => decide (s ≠ "")

/-- The first `if`: the amount check may set the reason. -/
def checkAmount (market : Market) (amount : JSNumber) (reason : Option String) :
    Option String :=
  if JSNumber.lt amount market.minimalOrder.amount then some "Amount is too small" else reason

/-- The second `if`: `_.isFunction(api.isValidPrice) && !api.isValidPrice(price)`. -/
def checkPrice (api : Api) (price : JSNumber) (reason : Option String) : Option String :=
  match api.isValidPrice with
  | some f => if !(f price) then some "Price is not valid" else reason
  | none => reason

/-- The third `if`: `_.isFunction(api.isValidLot) && !api.isValidLot(price, amount)`. -/
def checkLot (api : Api) (price amount : JSNumber) (reason : Option String) : Option String :=
  match api.isValidLot with
  | some g => if !(g price amount) then some "Lot size is too small" else reason
  | none => reason

/-- The function `isValidOrder({api, market, amount, price})`: `reason` starts as `false`, the
three `if` statements run one after the other, each assigning `reason` when its
condition holds, and the result is `{reason, valid: !reason}`. -/
def isValidOrder (api : Api) (market : Market) (amount price : JSNumber) : ValidationResult :=
  let reason := checkLot api price amount (checkPrice api price (checkAmount market amount none))
  { reason := reason, valid := !(truthy reason) }

/-! ## `getMarketConfig` (exchangeUtils.js, lines 80-85; ExchangeAPI.js, lines 135-140) -/

/-- The method `String.prototype.toUpperCase` on the ASCII letters, character by
character. -/
def toUpperCase (s : String) : String :=
  ⟨s.data.map Char.toUpper⟩

/-- The predicate handed to `_.find`: the stored symbols are compared with `===`
against the upper-cased symbols of the active market. `_.first` and `_.last` of
an empty array are `undefined`, which equals no string. -/
def matchesMarket (MARKET : MarketId) (p : Market) : Bool :=
  decide (p.pair.head? = some (toUpperCase MARKET.assetA)) &&
    decide (p.pair.getLast? = some (toUpperCase MARKET.assetB))

/-- The function `getMarketConfig(exchangeProperties)`: `_.find` returns the first market of
the list satisfying the predicate, or `undefined` (here `none`). The copy in
ExchangeAPI.js applies the same predicate to `getExchangeProperties().markets`;
the comment above it there, "Return number of decimals for the current market",
belongs to `getMaxDecimalPositions`: what is returned is the market record. -/
def getMarketConfig (exchangeProperties : ExchangeProperties) (MARKET : MarketId) :
    Option Market :=
  exchangeProperties.markets.find? (matchesMarket MARKET)

/-! ## `truncDecimals` (ExchangeAPI.js, lines 120-123) -/

/-- The strings `Number.prototype.toFixed` can return: `"NaN"`, `"Infinity"` with
its sign, `fixed negative n f` (the sign, then the decimal digits of the integer
`n` with a point before the last `f` of them), and `general x`, the
`Number::toString` form used from `10^21` on, which denotes the double `x`
itself. -/
inductive NumberString where
  | nan
  | infinity (negative : Bool)
  | fixed (negative : Bool) (n : ℕ) (fractionDigits : ℕ)
  | general (x : ℚ)
  deriving DecidableEq

/-- The call `x.toFixed(fractionDigits)` as ECMAScript defines it. More than 100
fraction digits throw a RangeError (`none`), whatever `x` is. A number that is
not finite is printed by `Number::toString`. Otherwise the sign is split off,
and below `10^21` the digits are those of the integer `n` for which
`n / 10^f - x` is as close to zero as possible, the larger one when there are
two: that integer is `⌊x * 10^f + 1/2⌋`. -/
def toFixed (x : JSNumber) (fractionDigits : ℕ) : Option NumberString :=
  if 100 < fractionDigits then none
  else
    match x with
    | .nan => some .nan
    | .infinity negative => some (.infinity negative)
    | .finite v =>
      if (10 : ℚ) ^ 21 ≤ |v| then some (.general v)
      else
        some (.fixed (decide (v < 0)) ⌊|v| * (10 : ℚ) ^ fractionDigits + 1 / 2⌋.toNat
          fractionDigits)

/-- The function `parseFloat` on a string produced by `toFixed`: the double nearest to the
decimal the string denotes, an infinity from the overflow threshold on. -/
def parseFloat : NumberString → JSNumber
  | .nan => .nan
  | .infinity negative => .infinity negative
  | .general x => .finite x
  | .fixed negative n f =>
    if overflowThreshold ≤ (n : ℚ) / (10 : ℚ) ^ f then .infinity negative
    else .finite ((if negative then -1 else 1) * roundToDouble ((n : ℚ) / (10 : ℚ) ^ f))

/-- The function `truncDecimals(pFloatValue)`, with the value of `getMaxDecimalPositions()` as
the explicit argument `decimals`:
`parseFloat(parseFloat(pFloatValue).toFixed(decimals))`. The inner `parseFloat`
prints its argument and reads it back: on a number it returns the same number,
and on a missing argument `NaN`, which is how a missing argument is passed
here. The result is `none` when `toFixed` throws. -/
def truncDecimals (decimals : ℕ) (pFloatValue : JSNumber) : Option JSNumber :=
  (toFixed pFloatValue decimals).map parseFloat

/-! ## `retryInstance` (exchangeUtils.js, lines 6-41) -/

/-- A response object such as `global.DEFAULT_OK_RESPONSE`. -/
structure Response where
  result : String
  message : String
  deriving DecidableEq

/-- The three response globals the gateway reads. -/
structure Globals where
  DEFAULT_OK_RESPONSE : Response
  DEFAULT_FAIL_RESPONSE : Response
  CUSTOM_OK_RESPONSE : Response
  deriving DecidableEq

/-- The fields of an error object that `retryInstance` reads. -/
structure Err where
  result : Option String
  notFatal : Bool
  backoffDelay : Option ℚ
  deriving DecidableEq

/-- What one invocation of the operation passes to its continuation:
`(err, result)`, with `err = none` for a falsy first argument. -/
structure Outcome (ρ : Type) where
  err : Option Err
  result : ρ

/-- The `options` object of `retryInstance`. -/
structure Options where
  retries : ℕ
  factor : ℚ
  minTimeout : ℚ
  maxTimeout : ℚ
  deriving DecidableEq

/-- The options used when the caller passes none (lines 7-14). -/
def defaultOptions : Options :=
  { retries := 30, factor := 3 / 2, minTimeout := 1 * 1000, maxTimeout := 8 * 1000 }

/-- The first argument `retryInstance` hands to `callback`: one of the response
globals, or the operation's own error object. -/
inductive Status where
  | response (r : Response)
  | error (e : Err)
  deriving DecidableEq

/-- The effects of one run of `retryInstance`, in the order they happen. -/
inductive Event (ρ : Type) where
  | checkFn (currentAttempt : ℕ)
  | setTimeout (delay : ℚ)
  | callback (status : Status) (result : Option ρ)
  deriving DecidableEq

/-- JavaScript truthiness of `err.backoffDelay`: present and not zero. -/
def truthyDelay : Option ℚ → Bool
  | none => false
  | some d => decide (d ≠ 0)

/-- Modelled from the spec: the delay the policy computes for the wait after
attempt `n`, `clamp(minDelay * factor^(n-1), minDelay, maxDelay)`. The `retry`
package that computes it is a dependency outside the sources. -/
def computedDelay (policy : Options) (n : ℕ) : ℚ :=
  max policy.minTimeout (min (policy.minTimeout * policy.factor ^ (n - 1)) policy.maxTimeout)

/-- Modelled from the spec: the timeouts `retry.operation(options)` holds, one
computed delay for each of the `options.retries` retries. -/
def timeouts (options : Options) : List ℚ :=
  (List.range options.retries).map (fun i => computedDelay options (i + 1))

/-- The function passed to `operation.attempt`, run at `currentAttempt` with the
operation's remaining timeouts `ts` (lines 17-40). The operation object belongs
to the `retry` package, a dependency outside the sources: its
`operation.retry(err)` is embedded as the spec's transition "wait the computed
delay, then the next attempt", that is, it takes the next timeout, arms a timer
with it and runs the function again with the next attempt number; with no
timeout left it returns `false` and nothing else happens. The operation
`checkFn` is opaque and calls its continuation once per invocation; `checkFn k`
is what its `k`-th invocation passes. -/
def attempt {ρ : Type} (G : Globals) (options : Options) (checkFn : ℕ → Outcome ρ) :
    List ℚ → ℕ → List (Event ρ)
  | ts, currentAttempt =>
    Event.checkFn currentAttempt ::
      match (checkFn currentAttempt).err with
      | none =>
        [Event.callback (.response G.DEFAULT_OK_RESPONSE) (some (checkFn currentAttempt).result)]
      | some err =>
        if err.result = some G.CUSTOM_OK_RESPONSE.result then
          [Event.callback (.error err) (some (checkFn currentAttempt).result)]
        else if currentAttempt > options.retries then
          [Event.callback (.response G.DEFAULT_FAIL_RESPONSE) none]
        else if err.notFatal then
          (if truthyDelay err.backoffDelay then [Event.setTimeout (err.backoffDelay.getD 0)]
            else []) ++
            match ts with
            | [] => []
            | t :: rest => Event.setTimeout t :: attempt G options checkFn rest (currentAttempt + 1)
        else
          []

/-- The function `retryInstance(options, checkFn, callback)`: the default options replace a
missing `options`, the operation is created and its first attempt runs with
`currentAttempt = 1`. -/
def retryInstance {ρ : Type} (G : Globals) (options : Option Options)
    (checkFn : ℕ → Outcome ρ) : List (Event ρ) :=
  let options := options.getD defaultOptions
  attempt G options checkFn (timeouts options) 1

/-- The attempt numbers at which the operation was invoked, in order. -/
def invocations {ρ : Type} : List (Event ρ) → List ℕ
  | [] => []
  | Event.checkFn n :: es => n :: invocations es
  | _ :: es => invocations es

/-- The calls of `callback`, in order. -/
def callbacks {ρ : Type} : List (Event ρ) → List (Status × Option ρ)
  | [] => []
  | Event.callback s r :: es => (s, r) :: callbacks es
  | _ :: es => callbacks es


/-! ## `putPosition` (ExchangeAPI.js, lines 221-261) -/

/-- The connector held in `apiClient`: its optional predicates and the snapshot
its `getExchangeProperties()` returns. -/
structure ApiClient extends Api where
  getExchangeProperties : ExchangeProperties

/-- The effects of one call of `putPosition`, in the order they happen. -/
inductive FacadeEvent where
  | buy (assetA assetB : String) (rate amount : JSNumber)
  | sell (assetA assetB : String) (rate amount : JSNumber)
  | callBack (r : Response)
  deriving DecidableEq

/-- The function `putPosition(pMarket, pType, pRate, pAmountA, pAmountB, callBack)`, up to
the hand-over to the connector: what `buy` and `sell` do with the callback is
the connector's business. The three `truncDecimals` calls of the log lines run
first; when one throws (no market configuration for the active market, so that
`getMarketConfig().maxDecimals` throws, or a RangeError of `toFixed`) the
`catch` block calls `callBack(global.DEFAULT_FAIL_RESPONSE)`. -/
def putPosition (G : Globals) (apiClient : ApiClient) (MARKET : MarketId)
    (pMarket : MarketId) (pType : String) (pRate pAmountA pAmountB : JSNumber) :
    List FacadeEvent :=
  match getMarketConfig apiClient.getExchangeProperties MARKET with
  | none => [FacadeEvent.callBack G.DEFAULT_FAIL_RESPONSE]
  | some market =>
    match truncDecimals market.maxDecimals pRate, truncDecimals market.maxDecimals pAmountA,
      truncDecimals market.maxDecimals pAmountB with
    | some rate, some _, some amount =>
      let check := isValidOrder apiClient.toApi market amount rate
      if check.valid then
        if pType = "buy" then
          [FacadeEvent.buy pMarket.assetA pMarket.assetB rate amount]
        else if pType = "sell" then
          [FacadeEvent.sell pMarket.assetA pMarket.assetB rate amount]
        else
          [FacadeEvent.callBack G.DEFAULT_FAIL_RESPONSE]
      else
        [FacadeEvent.callBack G.DEFAULT_FAIL_RESPONSE]
    | _, _, _ => [FacadeEvent.callBack G.DEFAULT_FAIL_RESPONSE]

/-! ## Vocabulary of the statements -/

/-- Rule 1 of the validator is violated: the amount is below the market minimum. -/
def amountViolated (market : Market) (amount : JSNumber) : Bool :=
  JSNumber.lt amount market.minimalOrder.amount

/-- Rule 2 is violated: the connector has `isValidPrice` and it rejects the price. -/
def priceViolated (api : Api) (price : JSNumber) : Bool :=
  match api.isValidPrice with
  | some f => !(f price)
  | none => false

/-- Rule 3 is violated: the connector has `isValidLot` and it rejects the lot. -/
def lotViolated (api : Api) (price amount : JSNumber) : Bool :=
  match api.isValidLot with
  | some g => !(g price amount)
  | none => false

/-- A connector whose only capability is an `isValidPrice` that rejects every
price. -/
def rejectingPriceApi : Api :=
  { isValidPrice := some (fun _ => false), isValidLot := none }

/-- The double nearest to the decimal `0.001`: `1152921504606847 / 2^60`. -/
def double_0_001 : ℚ :=
  1152921504606847 / 1152921504606846976

/-- The double nearest to the decimal `0.0005`: `1152921504606847 / 2^61`. -/
def double_0_0005 : ℚ :=
  1152921504606847 / 2305843009213693952

/-- The double nearest to the decimal `1.005`: `1131529406376837 / 2^50`, just
below `1.005`. -/
def double_1_005 : ℚ :=
  1131529406376837 / 1125899906842624

/-- The double nearest to the decimal `100.45`: `7068540352646349 / 2^46`. -/
def double_100_45 : ℚ :=
  7068540352646349 / 70368744177664

/-- The double nearest to the decimal `100.46`: `7069244040088125 / 2^46`. -/
def double_100_46 : ℚ :=
  7069244040088125 / 70368744177664

/-- The market of the end-to-end scenario: BTC/USDT, minimum amount 0.001, two
decimals. -/
def btcUsdt : Market :=
  { pair := ["BTC", "USDT"], minimalOrder := { amount := .finite double_0_001 },
    maxDecimals := 2 }

/-- A snapshot whose only market stores its symbols in lower case. -/
def lowerCaseProperties : ExchangeProperties :=
  { markets := [{ pair := ["btc", "usdt"], minimalOrder := { amount := .finite double_0_001 },
                  maxDecimals := 2 }] }

/-- The double nearest to the decimal `100.456`: `7068962565111415 / 2^46`. -/
def double_100_456 : ℚ :=
  7068962565111415 / 70368744177664

/-- The outcome is a retryable failure: an error marked `notFatal` that is not
the custom-ok sentinel. -/
def isRetryable {ρ : Type} (G : Globals) (out : Outcome ρ) : Bool :=
  match out.err with
  | some e => e.notFatal && decide (e.result ≠ some G.CUSTOM_OK_RESPONSE.result)
  | none => false

/-- The outcome is a fatal failure: an error that is not marked `notFatal` and is
not the custom-ok sentinel. -/
def isFatal {ρ : Type} (G : Globals) (out : Outcome ρ) : Bool :=
  match out.err with
  | some e => !e.notFatal && decide (e.result ≠ some G.CUSTOM_OK_RESPONSE.result)
  | none => false

/-- The timer armed for an explicit delay, when the error carries one. -/
def backoffEvents {ρ : Type} (e : Err) : List (Event ρ) :=
  if truthyDelay e.backoffDelay then [Event.setTimeout (e.backoffDelay.getD 0)] else []

/-- A concrete choice of the three response globals. -/
def sampleGlobals : Globals :=
  { DEFAULT_OK_RESPONSE := { result := "Ok", message := "Operation Succeeded" },
    DEFAULT_FAIL_RESPONSE := { result := "Fail", message := "Operation Failed" },
    CUSTOM_OK_RESPONSE := { result := "Ok, but check Message", message := "Custom Message" } }

/-- A retryable error without explicit delay. -/
def transientErr : Err :=
  { result := some "Fail", notFatal := true, backoffDelay := none }

/-- A fatal error: not marked `notFatal`, not the sentinel. -/
def fatalErr : Err :=
  { result := some "Fail", notFatal := false, backoffDelay := none }

/-- An operation that fails with a retryable error on every attempt. -/
def alwaysTransient : ℕ → Outcome Unit :=
  fun _ => { err := some transientErr, result := () }

/-- An operation that fails with a fatal error on every attempt. -/
def alwaysFatal : ℕ → Outcome Unit :=
  fun _ => { err := some fatalErr, result := () }

/-- A policy with three retries and the default backoff parameters. -/
def threeRetries : Options :=
  { retries := 3, factor := 3 / 2, minTimeout := 1000, maxTimeout := 8000 }

/-- A retryable error carrying an explicit delay of 500 ms. -/
def delayedErr : Err :=
  { result := some "Fail", notFatal := true, backoffDelay := some 500 }

/-- An operation whose first attempt fails with `delayedErr` and whose later
attempts succeed. -/
def delayedThenOk : ℕ → Outcome Unit :=
  fun n => if n = 1 then { err := some delayedErr, result := () }
    else { err := none, result := () }

/-- An operation whose first two attempts fail with a retryable error and whose
later attempts succeed with payload `7`. -/
def okAtThird : ℕ → Outcome ℕ :=
  fun n => if n < 3 then { err := some transientErr, result := 0 }
    else { err := none, result := 7 }

/-- A policy without retries. -/
def noRetries : Options :=
  { retries := 0, factor := 3 / 2, minTimeout := 1000, maxTimeout := 8000 }

/-- A connector without optional predicates. -/
def plainApi : Api :=
  { isValidPrice := none, isValidLot := none }

/-- A connector whose `isValidPrice` and `isValidLot` both reject everything. -/
def rejectingAllApi : Api :=
  { isValidPrice := some (fun _ => false), isValidLot := some (fun _ _ => false) }

/-- A snapshot listing the BTC/USDT market, symbols stored in upper case. -/
def upperCaseProperties : ExchangeProperties :=
  { markets := [btcUsdt] }

/-- The active market BTC/USDT. -/
def btcUsdtId : MarketId :=
  { assetA := "BTC", assetB := "USDT" }

/-- A connector without optional predicates serving `upperCaseProperties`. -/
def plainClient : ApiClient :=
  { isValidPrice := none, isValidLot := none, getExchangeProperties := upperCaseProperties }


/-! ## Theorems -/

theorem checkLot_eq (api : Api) (price amount : JSNumber) (r : Option String) :
    checkLot api price amount r =
      if lotViolated api price amount then some "Lot size is too small" else r := by
  unfold checkLot lotViolated
  cases api.isValidLot <;> simp

theorem checkPrice_eq (api : Api) (price : JSNumber) (r : Option String) :
    checkPrice api price r =
      if priceViolated api price then some "Price is not valid" else r := by
  unfold checkPrice priceViolated
  cases api.isValidPrice <;> simp

theorem checkAmount_eq (market : Market) (amount : JSNumber) (r : Option String) :
    checkAmount market amount r =
      if amountViolated market amount then some "Amount is too small" else r := by
  unfold checkAmount amountViolated
  rfl

theorem isValidOrder_reason (api : Api) (market : Market) (amount price : JSNumber) :
    (isValidOrder api market amount price).reason =
      if lotViolated api price amount then some "Lot size is too small"
      else if priceViolated api price then some "Price is not valid"
      else if amountViolated market amount then some "Amount is too small"
      else none := by
  simp only [isValidOrder, checkLot_eq, checkPrice_eq, checkAmount_eq]

theorem isValidOrder_valid (api : Api) (market : Market) (amount price : JSNumber) :
    (isValidOrder api market amount price).valid =
      !(lotViolated api price amount || priceViolated api price ||
        amountViolated market amount) := by
  simp only [isValidOrder, checkLot_eq, checkPrice_eq, checkAmount_eq]
  cases lotViolated api price amount <;> cases priceViolated api price <;>
    cases amountViolated market amount <;> simp [truthy]

theorem lt_double_0_0005 :
    JSNumber.lt (.finite double_0_0005) btcUsdt.minimalOrder.amount = true := by
  simp only [btcUsdt, JSNumber.lt, decide_eq_true_eq]
  norm_num [double_0_0005, double_0_001]

theorem not_lt_one : JSNumber.lt (.finite 1) btcUsdt.minimalOrder.amount = false := by
  simp only [btcUsdt, JSNumber.lt, decide_eq_false_iff_not]
  norm_num [double_0_001]

/-- C1 (as amended): the reason returned by `isValidOrder` is that of the last
violated rule in the order amount, price, lot, and `valid` is false as soon as
one rule is violated. In particular, when the amount is below the minimum and
`isValidPrice` is present and rejects the price, the result is invalid with
reason "Lot size is too small" if `isValidLot` is present and rejects the lot,
and "Price is not valid" otherwise. -/
theorem isValidOrder_reason_last_violated (api : Api) (market : Market)
    (amount price : JSNumber) :
    ((isValidOrder api market amount price).reason =
        if lotViolated api price amount then some "Lot size is too small"
        else if priceViolated api price then some "Price is not valid"
        else if amountViolated market amount then some "Amount is too small"
        else none) ∧
    ((isValidOrder api market amount price).valid =
        !(lotViolated api price amount || priceViolated api price ||
          amountViolated market amount)) ∧
    (∀ f : JSNumber → Bool, JSNumber.lt amount market.minimalOrder.amount = true →
        api.isValidPrice = some f → f price = false →
        isValidOrder api market amount price =
          { reason := if lotViolated api price amount then some "Lot size is too small"
                      else some "Price is not valid",
            valid := false }) := by
  refine ⟨isValidOrder_reason api market amount price,
    isValidOrder_valid api market amount price, ?_⟩
  intro f hlt hf hfp
  have hp : priceViolated api price = true := by simp [priceViolated, hf, hfp]
  have hr := isValidOrder_reason api market amount price
  have hv := isValidOrder_valid api market amount price
  rw [hp] at hr hv
  cases h : isValidOrder api market amount price with
  | mk reason valid =>
    rw [h] at hr hv
    simp only at hr hv
    subst hr hv
    cases lotViolated api price amount <;> simp

/-- C1 (counterexample): on the BTC/USDT market with minimum amount 0.001, the
order of amount 0.0005 at price 100.45 sent through a connector whose
`isValidPrice` rejects the price is below the minimum, and the reason returned
is "Price is not valid", not "Amount is too small". -/
theorem isValidOrder_reason_first_violated_counterexample :
    JSNumber.lt (.finite double_0_0005) btcUsdt.minimalOrder.amount = true ∧
    (∃ f, rejectingPriceApi.isValidPrice = some f ∧ f (.finite double_100_45) = false) ∧
    isValidOrder rejectingPriceApi btcUsdt (.finite double_0_0005) (.finite double_100_45) =
      { reason := some "Price is not valid", valid := false } ∧
    (isValidOrder rejectingPriceApi btcUsdt (.finite double_0_0005)
        (.finite double_100_45)).reason ≠ some "Amount is too small" := by
  have h : isValidOrder rejectingPriceApi btcUsdt (.finite double_0_0005)
      (.finite double_100_45) = { reason := some "Price is not valid", valid := false } := by
    simp [isValidOrder, checkLot, checkPrice, checkAmount, rejectingPriceApi, truthy]
  refine ⟨lt_double_0_0005, ⟨_, rfl, rfl⟩, h, ?_⟩
  rw [h]
  decide

/-- C1 (witness): below the minimum, with both predicates rejecting, the reason
is the one of the lot rule, the last violated. -/
theorem isValidOrder_reason_last_violated_witness :
    isValidOrder rejectingAllApi btcUsdt (.finite double_0_0005) (.finite double_100_45) =
      { reason := some "Lot size is too small", valid := false } := by
  have h := (isValidOrder_reason_last_violated rejectingAllApi btcUsdt (.finite double_0_0005)
    (.finite double_100_45)).2.2 (fun _ => false) lt_double_0_0005 rfl rfl
  rw [h]
  rfl

theorem ge_eq_not_lt (a b : JSNumber) (ha : a ≠ .nan) (hb : b ≠ .nan) :
    JSNumber.ge a b = !(JSNumber.lt a b) := by
  cases a <;> cases b <;> simp_all [JSNumber.ge]

theorem lt_ge_of_nan (a b : JSNumber) (h : a = .nan ∨ b = .nan) :
    JSNumber.lt a b = false ∧ JSNumber.ge a b = false := by
  rcases h with rfl | rfl
  · cases b <;> simp [JSNumber.lt, JSNumber.ge]
  · cases a <;> simp [JSNumber.lt, JSNumber.ge]

/-- C2 (as amended): `isValidOrder` returns `valid = true` exactly when the
comparison `amount < market.minimalOrder.amount` is false, `isValidPrice` is
absent or accepts the price, and `isValidLot` is absent or accepts the lot. The
comparison is false exactly when `amount >= minimum` if neither number is `NaN`,
and it is false (as `>=` is) when one of them is `NaN`, in which case the amount
check passes. With a connector lacking both predicates the result is valid
exactly when the comparison is false, and the only possible reason is the amount
one; and the reason is `false` (absent), hence falsy, exactly when `valid` is
true. -/
theorem isValidOrder_valid_iff (api : Api) (market : Market) (amount price : JSNumber) :
    ((isValidOrder api market amount price).valid = true ↔
        JSNumber.lt amount market.minimalOrder.amount = false ∧
        (∀ f, api.isValidPrice = some f → f price = true) ∧
        (∀ g, api.isValidLot = some g → g price amount = true)) ∧
    (amount ≠ .nan → market.minimalOrder.amount ≠ .nan →
        (JSNumber.lt amount market.minimalOrder.amount = false ↔
          JSNumber.ge amount market.minimalOrder.amount = true)) ∧
    (amount = .nan ∨ market.minimalOrder.amount = .nan →
        JSNumber.lt amount market.minimalOrder.amount = false ∧
        JSNumber.ge amount market.minimalOrder.amount = false) ∧
    (api.isValidPrice = none → api.isValidLot = none →
        ((isValidOrder api market amount price).valid = true ↔
          JSNumber.lt amount market.minimalOrder.amount = false) ∧
        ((isValidOrder api market amount price).reason = none ∨
          (isValidOrder api market amount price).reason = some "Amount is too small")) ∧
    ((isValidOrder api market amount price).valid = true ↔
        (isValidOrder api market amount price).reason = none) ∧
    ((isValidOrder api market amount price).valid = true ↔
        truthy (isValidOrder api market amount price).reason = false) := by
  have hr := isValidOrder_reason api market amount price
  have hv := isValidOrder_valid api market amount price
  refine ⟨?_, ?_, lt_ge_of_nan _ _, ?_, ?_, ?_⟩
  · rw [hv]
    unfold lotViolated priceViolated amountViolated
    cases api.isValidPrice <;> cases api.isValidLot <;> simp <;> tauto
  · intro ha hb
    rw [ge_eq_not_lt _ _ ha hb]
    simp
  · intro hp hl
    rw [hv, hr]
    unfold lotViolated priceViolated amountViolated
    rw [hp, hl]
    cases h : JSNumber.lt amount market.minimalOrder.amount <;> simp
  · rw [hv, hr]
    cases lotViolated api price amount <;> cases priceViolated api price <;>
      cases amountViolated market amount <;> simp
  · rw [hv, hr]
    cases lotViolated api price amount <;> cases priceViolated api price <;>
      cases amountViolated market amount <;> simp [truthy]

/-- C2 (witness): on BTC/USDT with a connector without predicates, amount 1 is
accepted and amount 0.0005 is rejected. -/
theorem isValidOrder_valid_iff_witness :
    (isValidOrder plainApi btcUsdt (.finite 1) (.finite double_100_45)).valid = true ∧
    ¬ (isValidOrder plainApi btcUsdt (.finite double_0_0005)
        (.finite double_100_45)).valid = true :=
  ⟨((isValidOrder_valid_iff plainApi btcUsdt (.finite 1)
        (.finite double_100_45)).2.2.2.1 rfl rfl).1.mpr not_lt_one,
    fun h => absurd
      (((isValidOrder_valid_iff plainApi btcUsdt (.finite double_0_0005)
        (.finite double_100_45)).2.2.2.1 rfl rfl).1.mp h)
      (by rw [lt_double_0_0005]; decide)⟩

theorem matchesMarket_iff (MARKET : MarketId) (p : Market) :
    matchesMarket MARKET p = true ↔
      p.pair.head? = some (toUpperCase MARKET.assetA) ∧
      p.pair.getLast? = some (toUpperCase MARKET.assetB) := by
  simp [matchesMarket]

/-- C3 (as amended): `getMarketConfig` upper-cases the requested symbols only and
compares the stored symbols exactly. It returns the first market of the
snapshot whose first symbol is the upper-cased `assetA` and whose last symbol is
the upper-cased `assetB`, and not-found exactly when no market matches that
way. Hence for every market of the snapshot whose pair `(A, B)` is stored in
upper case, any case variant of `A` and `B` resolves to a market with pair ends
`A` and `B`; and the swapped request fails when no market stores the upper-cased
`(B, A)`. -/
theorem getMarketConfig_spec (exchangeProperties : ExchangeProperties) :
    (∀ MARKET m, getMarketConfig exchangeProperties MARKET = some m →
        m ∈ exchangeProperties.markets ∧
        m.pair.head? = some (toUpperCase MARKET.assetA) ∧
        m.pair.getLast? = some (toUpperCase MARKET.assetB)) ∧
    (∀ MARKET m, getMarketConfig exchangeProperties MARKET = some m →
        ∃ before after, exchangeProperties.markets = before ++ m :: after ∧
          ∀ x ∈ before, ¬ (x.pair.head? = some (toUpperCase MARKET.assetA) ∧
            x.pair.getLast? = some (toUpperCase MARKET.assetB))) ∧
    (∀ MARKET, getMarketConfig exchangeProperties MARKET = none ↔
        ∀ m ∈ exchangeProperties.markets,
          ¬ (m.pair.head? = some (toUpperCase MARKET.assetA) ∧
             m.pair.getLast? = some (toUpperCase MARKET.assetB))) ∧
    (∀ m ∈ exchangeProperties.markets, ∀ A B a b : String,
        m.pair = [A, B] → toUpperCase A = A → toUpperCase B = B →
        toUpperCase a = toUpperCase A → toUpperCase b = toUpperCase B →
        ∃ found, getMarketConfig exchangeProperties { assetA := a, assetB := b } = some found ∧
          found ∈ exchangeProperties.markets ∧
          found.pair.head? = some A ∧ found.pair.getLast? = some B) ∧
    (∀ A B : String,
        (∀ m ∈ exchangeProperties.markets,
          ¬ (m.pair.head? = some (toUpperCase B) ∧ m.pair.getLast? = some (toUpperCase A))) →
        getMarketConfig exchangeProperties { assetA := B, assetB := A } = none) := by
  have hsome : ∀ MARKET m, getMarketConfig exchangeProperties MARKET = some m →
      m ∈ exchangeProperties.markets ∧
      m.pair.head? = some (toUpperCase MARKET.assetA) ∧
      m.pair.getLast? = some (toUpperCase MARKET.assetB) := by
    intro MARKET m h
    unfold getMarketConfig at h
    exact ⟨List.mem_of_find?_eq_some h, (matchesMarket_iff MARKET m).mp (List.find?_some h)⟩
  have hnone : ∀ MARKET, getMarketConfig exchangeProperties MARKET = none ↔
      ∀ m ∈ exchangeProperties.markets,
        ¬ (m.pair.head? = some (toUpperCase MARKET.assetA) ∧
           m.pair.getLast? = some (toUpperCase MARKET.assetB)) := by
    intro MARKET
    unfold getMarketConfig
    rw [List.find?_eq_none]
    constructor
    · intro h m hm hc
      exact h m hm ((matchesMarket_iff MARKET m).mpr hc)
    · intro h m hm hc
      exact h m hm ((matchesMarket_iff MARKET m).mp hc)
  refine ⟨hsome, ?_, hnone, ?_, ?_⟩
  · intro MARKET m h
    unfold getMarketConfig at h
    obtain ⟨_, before, after, hsplit, hbefore⟩ := List.find?_eq_some.mp h
    refine ⟨before, after, hsplit, fun x hx hc => ?_⟩
    have := hbefore x hx
    rw [(matchesMarket_iff MARKET x).mpr hc] at this
    exact absurd this (by decide)
  · intro m hm A B a b hpair hA hB ha hb
    cases hfound : getMarketConfig exchangeProperties { assetA := a, assetB := b } with
    | none =>
      exfalso
      refine (hnone _).mp hfound m hm ⟨?_, ?_⟩
      · simp [hpair, ha, hA]
      · simp [hpair, hb, hB]
    | some found =>
      obtain ⟨h1, h2, h3⟩ := hsome _ _ hfound
      refine ⟨found, rfl, h1, ?_, ?_⟩
      · simpa [ha, hA] using h2
      · simpa [hb, hB] using h3
  · intro A B h
    exact (hnone _).mpr h

/-- C3 (witness): with BTC/USDT stored in upper case, the mixed-case request
`("btc", "UsDt")` resolves to it and the swapped request does not resolve. -/
theorem getMarketConfig_spec_witness :
    (∃ found, getMarketConfig upperCaseProperties { assetA := "btc", assetB := "UsDt" } =
        some found ∧ found ∈ upperCaseProperties.markets ∧
        found.pair.head? = some "BTC" ∧ found.pair.getLast? = some "USDT") ∧
    getMarketConfig upperCaseProperties { assetA := "USDT", assetB := "BTC" } = none :=
  ⟨(getMarketConfig_spec upperCaseProperties).2.2.2.1 btcUsdt (List.mem_singleton.mpr rfl)
      "BTC" "USDT" "btc" "UsDt" rfl (by decide) (by decide) (by decide) (by decide),
    (getMarketConfig_spec upperCaseProperties).2.2.2.2 "BTC" "USDT"
      (fun m hm => by
        rw [List.mem_singleton.mp hm]
        decide)⟩

/-- C3 (counterexample): the snapshot lists one market with pair `("btc", "usdt")`,
and resolving the very same symbols `("btc", "usdt")`, which agree with the
stored ones in every case-insensitive sense, returns not-found; so does the
upper-case request. -/
theorem getMarketConfig_case_insensitive_counterexample :
    (∃ m ∈ lowerCaseProperties.markets, m.pair = ["btc", "usdt"]) ∧
    getMarketConfig lowerCaseProperties { assetA := "btc", assetB := "usdt" } = none ∧
    getMarketConfig lowerCaseProperties { assetA := "BTC", assetB := "USDT" } = none := by
  refine ⟨⟨_, List.mem_singleton.mpr rfl, rfl⟩, ?_, ?_⟩ <;> decide

theorem floor_add_half_nearest (y : ℚ) (m : ℤ) :
    |((⌊y + 1 / 2⌋ : ℤ) : ℚ) - y| ≤ |(m : ℚ) - y| ∧
      (|(m : ℚ) - y| = |((⌊y + 1 / 2⌋ : ℤ) : ℚ) - y| → m ≤ ⌊y + 1 / 2⌋) := by
  have h1 : ((⌊y + 1 / 2⌋ : ℤ) : ℚ) ≤ y + 1 / 2 := Int.floor_le _
  have h2 : y + 1 / 2 < ((⌊y + 1 / 2⌋ : ℤ) : ℚ) + 1 := Int.lt_floor_add_one _
  set n : ℤ := ⌊y + 1 / 2⌋ with hn
  have hny : |(n : ℚ) - y| ≤ 1 / 2 := by
    rw [abs_le]; constructor <;> linarith
  rcases lt_trichotomy m n with hlt | heq | hgt
  · have hm : (m : ℚ) + 1 ≤ n := by exact_mod_cast hlt
    refine ⟨?_, fun _ => le_of_lt hlt⟩
    have : (1 : ℚ) / 2 ≤ |(m : ℚ) - y| := by
      have := neg_le_abs ((m : ℚ) - y)
      linarith
    linarith
  · subst heq
    exact ⟨le_rfl, fun _ => le_rfl⟩
  · have hm : (n : ℚ) + 1 ≤ m := by exact_mod_cast hgt
    have hbig : (1 : ℚ) / 2 < |(m : ℚ) - y| := by
      have := le_abs_self ((m : ℚ) - y)
      linarith
    refine ⟨by linarith, fun h => ?_⟩
    rw [h] at hbig
    linarith

/-- The integer `toFixed` prints is the one ECMAScript asks for: among all
integers `m`, `n / 10^f - x` is as close to zero as possible, and of two
equally close integers it is the larger. -/
theorem toFixed_nearest (x : ℚ) (f : ℕ) (m : ℤ) :
    |((⌊x * (10 : ℚ) ^ f + 1 / 2⌋ : ℤ) : ℚ) / (10 : ℚ) ^ f - x| ≤ |(m : ℚ) / (10 : ℚ) ^ f - x| ∧
      (|(m : ℚ) / (10 : ℚ) ^ f - x| = |((⌊x * (10 : ℚ) ^ f + 1 / 2⌋ : ℤ) : ℚ) / (10 : ℚ) ^ f - x| →
        m ≤ ⌊x * (10 : ℚ) ^ f + 1 / 2⌋) := by
  have hpow : (0 : ℚ) < (10 : ℚ) ^ f := by positivity
  have key : ∀ k : ℤ, |(k : ℚ) / (10 : ℚ) ^ f - x| = |(k : ℚ) - x * (10 : ℚ) ^ f| / (10 : ℚ) ^ f := by
    intro k
    have : (k : ℚ) / (10 : ℚ) ^ f - x = ((k : ℚ) - x * (10 : ℚ) ^ f) / (10 : ℚ) ^ f := by
      field_simp
      ring
    rw [this, abs_div, abs_of_pos hpow]
  obtain ⟨h1, h2⟩ := floor_add_half_nearest (x * (10 : ℚ) ^ f) m
  rw [key, key]
  constructor
  · exact div_le_div_of_nonneg_right h1 hpow.le
  · intro h
    apply h2
    have := congrArg (fun t => t * (10 : ℚ) ^ f) h
    simpa [div_mul_cancel₀, hpow.ne'] using this

theorem roundHalfEven_abs (t : ℚ) : |(roundHalfEven t : ℚ) - t| ≤ 1 / 2 := by
  have h1 : (⌊t⌋ : ℚ) ≤ t := Int.floor_le t
  have h2 : t < (⌊t⌋ : ℚ) + 1 := Int.lt_floor_add_one t
  unfold roundHalfEven
  split_ifs with ha hb hc
  · rw [abs_le]; constructor <;> linarith
  · rw [abs_le]; constructor <;> push_cast <;> linarith
  · rw [abs_le]; constructor <;> linarith
  · rw [abs_le]; constructor <;> push_cast <;> linarith

theorem roundHalfEven_nearest (t : ℚ) (k : ℤ) :
    |(roundHalfEven t : ℚ) - t| ≤ |(k : ℚ) - t| := by
  have h := roundHalfEven_abs t
  rcases lt_trichotomy k (roundHalfEven t) with hlt | heq | hgt
  · have hk : (k : ℚ) + 1 ≤ roundHalfEven t := by exact_mod_cast hlt
    have h3 := (abs_le.mp h).2
    have := neg_le_abs ((k : ℚ) - t)
    linarith
  · rw [heq]
  · have hk : (roundHalfEven t : ℚ) + 1 ≤ k := by exact_mod_cast hgt
    have h3 := (abs_le.mp h).1
    have := le_abs_self ((k : ℚ) - t)
    linarith

theorem roundHalfEven_intCast (k : ℤ) : roundHalfEven (k : ℚ) = k := by
  unfold roundHalfEven
  simp

theorem two_zpow_pos (e : ℤ) : (0 : ℚ) < (2 : ℚ) ^ e := zpow_pos (by norm_num) e

theorem roundToDouble_sub (q : ℚ) :
    roundToDouble q - q =
      ((roundHalfEven (q / (2 : ℚ) ^ doubleExponent q) : ℚ) - q / (2 : ℚ) ^ doubleExponent q) *
        (2 : ℚ) ^ doubleExponent q := by
  have hp := two_zpow_pos (doubleExponent q)
  unfold roundToDouble
  field_simp

theorem roundToDouble_error (q : ℚ) :
    |roundToDouble q - q| ≤ (2 : ℚ) ^ doubleExponent q / 2 := by
  have hp := two_zpow_pos (doubleExponent q)
  rw [roundToDouble_sub, abs_mul, abs_of_pos hp]
  have := roundHalfEven_abs (q / (2 : ℚ) ^ doubleExponent q)
  nlinarith

theorem two_zpow_add_52 (e : ℤ) :
    (2 : ℚ) ^ (e + 52) = (2 : ℚ) ^ 53 * (2 : ℚ) ^ (e - 1) := by
  have h : e + 52 = (53 : ℤ) + (e - 1) := by ring
  rw [h, zpow_add₀ (by norm_num : (2 : ℚ) ≠ 0)]
  norm_num

theorem two_zpow_half (e : ℤ) : (2 : ℚ) ^ (e - 1) = (2 : ℚ) ^ e / 2 := by
  rw [zpow_sub₀ (by norm_num : (2 : ℚ) ≠ 0)]
  norm_num

theorem isDouble_cases (a q : ℚ) (ha : IsDouble a) (hq : 0 < q) :
    (∃ k : ℤ, a = k * (2 : ℚ) ^ doubleExponent q) ∨
      (a ≤ (2 : ℚ) ^ (doubleExponent q + 52) - (2 : ℚ) ^ (doubleExponent q - 1) ∧
        (2 : ℚ) ^ (doubleExponent q + 52) ≤ q) := by
  obtain ⟨m, ea, hm, hea, _, rfl⟩ := ha
  by_cases h : doubleExponent q ≤ ea
  · left
    obtain ⟨j, hj⟩ := Int.eq_ofNat_of_zero_le (sub_nonneg.mpr h)
    refine ⟨m * 2 ^ j, ?_⟩
    have hea' : ea = doubleExponent q + (j : ℤ) := by omega
    rw [hea', zpow_add₀ (by norm_num : (2 : ℚ) ≠ 0), zpow_natCast]
    push_cast
    ring
  · right
    push_neg at h
    have hlog : doubleExponent q = Int.log 2 q - 52 := by
      unfold doubleExponent at h ⊢
      rcases max_cases (Int.log 2 q - 52) (-1074) with ⟨h1, _⟩ | ⟨h1, _⟩
      · exact h1
      · rw [h1] at h; omega
    constructor
    · have hm' : (m : ℚ) ≤ 2 ^ 53 - 1 := by
        have : m ≤ 2 ^ 53 - 1 := by
          have := (abs_lt.mp hm).2
          omega
        exact_mod_cast this
      have hpow : (2 : ℚ) ^ ea ≤ (2 : ℚ) ^ (doubleExponent q - 1) :=
        zpow_le_zpow_right₀ (by norm_num) (by omega)
      have hp1 := two_zpow_pos ea
      have hp2 := two_zpow_pos (doubleExponent q - 1)
      rw [two_zpow_add_52]
      by_cases hm0 : (m : ℚ) ≤ 0
      · nlinarith
      · push_neg at hm0
        nlinarith
    · have := Int.zpow_log_le_self (b := 2) (by norm_num) hq
      rw [hlog]
      simpa using this

/-- The double nearest to `q` is at least as close to `q` as any double. -/
theorem roundToDouble_nearest (a q : ℚ) (ha : IsDouble a) (hq : 0 < q) :
    |roundToDouble q - q| ≤ |a - q| := by
  have hp := two_zpow_pos (doubleExponent q)
  rcases isDouble_cases a q ha hq with ⟨k, hk⟩ | ⟨h1, h2⟩
  · have hak : a - q = ((k : ℚ) - q / (2 : ℚ) ^ doubleExponent q) *
        (2 : ℚ) ^ doubleExponent q := by
      rw [hk]; field_simp
    rw [roundToDouble_sub, hak, abs_mul, abs_mul, abs_of_pos hp]
    exact mul_le_mul_of_nonneg_right (roundHalfEven_nearest _ k) hp.le
  · have herr := roundToDouble_error q
    rw [← two_zpow_half] at herr
    have := neg_le_abs (a - q)
    linarith

theorem ten_pow_mul_two_zpow (d : ℕ) (e : ℤ) (h : (10 : ℚ) ^ d * (2 : ℚ) ^ e = 1) : d = 0 := by
  by_contra hd
  have hd1 : 1 ≤ d := Nat.one_le_iff_ne_zero.mpr hd
  have h10 : (10 : ℚ) ≤ (10 : ℚ) ^ d := by
    calc (10 : ℚ) = (10 : ℚ) ^ 1 := by norm_num
      _ ≤ (10 : ℚ) ^ d := pow_le_pow_right₀ (by norm_num) hd1
  rcases le_or_lt 0 e with he | he
  · have : (1 : ℚ) ≤ (2 : ℚ) ^ e := one_le_zpow₀ (by norm_num) he
    nlinarith
  · obtain ⟨j, hj⟩ := Int.eq_ofNat_of_zero_le (show (0 : ℤ) ≤ -e by omega)
    have he' : e = -(j : ℤ) := by omega
    rw [he', zpow_neg, zpow_natCast] at h
    have hpos : (0 : ℚ) < (2 : ℚ) ^ j := by positivity
    have hq : (10 : ℚ) ^ d = (2 : ℚ) ^ j := by
      field_simp at h
      exact h
    have hn : (10 : ℕ) ^ d = 2 ^ j := by exact_mod_cast hq
    have h5 : 5 ∣ (2 : ℕ) ^ j := by
      rw [← hn]
      exact Dvd.dvd.pow (by norm_num) hd
    have := (Nat.Prime.dvd_of_dvd_pow (by norm_num : Nat.Prime 5) h5)
    omega

theorem roundToDouble_zero : roundToDouble 0 = 0 := by
  unfold roundToDouble
  have : roundHalfEven 0 = 0 := by
    have := roundHalfEven_intCast 0
    simpa using this
  simp [this]

theorem tie_impossible (a : ℚ) (n : ℤ) (d : ℕ) (ha : IsDouble a)
    (hq : 0 < (n : ℚ) / (10 : ℚ) ^ d)
    (h1 : roundToDouble ((n : ℚ) / (10 : ℚ) ^ d) - (n : ℚ) / (10 : ℚ) ^ d =
      1 / (2 * (10 : ℚ) ^ d))
    (h2 : (n : ℚ) / (10 : ℚ) ^ d - a = 1 / (2 * (10 : ℚ) ^ d)) : False := by
  have hP : (0 : ℚ) < (10 : ℚ) ^ d := by positivity
  set q : ℚ := (n : ℚ) / (10 : ℚ) ^ d with hqdef
  have hp := two_zpow_pos (doubleExponent q)
  have hh : (0 : ℚ) < 1 / (2 * (10 : ℚ) ^ d) := by positivity
  have herr := roundToDouble_error q
  rw [h1, abs_of_pos hh] at herr
  have hge : (2 : ℚ) ^ doubleExponent q / 2 ≤ 1 / (2 * (10 : ℚ) ^ d) := by
    rcases isDouble_cases a q ha hq with ⟨k, hk⟩ | ⟨h3, h4⟩
    · have hdiff : roundToDouble q - a =
          (((roundHalfEven (q / (2 : ℚ) ^ doubleExponent q) - k : ℤ) : ℚ)) *
            (2 : ℚ) ^ doubleExponent q := by
        rw [hk]; unfold roundToDouble; push_cast; ring
      have hsum : roundToDouble q - a = 2 * (1 / (2 * (10 : ℚ) ^ d)) := by linarith
      have hpos : (0 : ℚ) < ((roundHalfEven (q / (2 : ℚ) ^ doubleExponent q) - k : ℤ) : ℚ) := by
        have : (0 : ℚ) < roundToDouble q - a := by rw [hsum]; positivity
        rw [hdiff] at this
        exact (mul_pos_iff_of_pos_right hp).mp this
      have hone : (1 : ℚ) ≤ ((roundHalfEven (q / (2 : ℚ) ^ doubleExponent q) - k : ℤ) : ℚ) := by
        have : (0 : ℤ) < roundHalfEven (q / (2 : ℚ) ^ doubleExponent q) - k := by
          exact_mod_cast hpos
        exact_mod_cast this
      have : (2 : ℚ) ^ doubleExponent q ≤ roundToDouble q - a := by
        rw [hdiff]; nlinarith
      linarith
    · rw [two_zpow_half] at h3
      linarith
  have heq : (10 : ℚ) ^ d * (2 : ℚ) ^ doubleExponent q = 1 := by
    have h5 : (2 : ℚ) ^ doubleExponent q / 2 = 1 / (2 * (10 : ℚ) ^ d) := le_antisymm hge herr
    field_simp at h5
    linarith
  have hd := ten_pow_mul_two_zpow d _ heq
  subst hd
  simp only [pow_zero, one_mul] at heq
  have hqn : q = n := by simp [hqdef]
  have hr : roundToDouble q = n := by
    unfold roundToDouble
    rw [heq, hqn]
    simp [roundHalfEven_intCast]
  rw [hr, hqn] at h1
  norm_num at h1

/-- Formatting a double with `d` fraction digits, reading the decimal back as
the nearest double and formatting again gives the same digits. -/
theorem floor_roundToDouble (a : ℚ) (d : ℕ) (ha : IsDouble a) (h0 : 0 ≤ a) :
    ⌊roundToDouble ((⌊a * (10 : ℚ) ^ d + 1 / 2⌋ : ℚ) / (10 : ℚ) ^ d) * (10 : ℚ) ^ d + 1 / 2⌋ =
      ⌊a * (10 : ℚ) ^ d + 1 / 2⌋ := by
  have hP : (0 : ℚ) < (10 : ℚ) ^ d := by positivity
  set n : ℤ := ⌊a * (10 : ℚ) ^ d + 1 / 2⌋ with hn
  have hn1 : (n : ℚ) ≤ a * (10 : ℚ) ^ d + 1 / 2 := Int.floor_le _
  have hn2 : a * (10 : ℚ) ^ d + 1 / 2 < (n : ℚ) + 1 := Int.lt_floor_add_one _
  have hn0 : 0 ≤ n := Int.floor_nonneg.mpr (by positivity)
  rcases eq_or_lt_of_le hn0 with hz | hpos
  · rw [← hz]
    simp [roundToDouble_zero]
    norm_num
  · have hq : (0 : ℚ) < (n : ℚ) / (10 : ℚ) ^ d := by
      have : (0 : ℚ) < n := by exact_mod_cast hpos
      positivity
    set q : ℚ := (n : ℚ) / (10 : ℚ) ^ d with hqdef
    have hqP : q * (10 : ℚ) ^ d = n := by rw [hqdef]; field_simp
    have hnear := roundToDouble_nearest a q ha hq
    set h : ℚ := 1 / (2 * (10 : ℚ) ^ d) with hdef
    have hhP : h * (10 : ℚ) ^ d = 1 / 2 := by rw [hdef]; field_simp; ring
    have hhpos : 0 < h := by rw [hdef]; positivity
    -- `a` is within half a unit of the last digit of `q`
    have ha1 : -h ≤ a - q := by
      apply le_of_mul_le_mul_right _ hP
      linarith
    have ha2 : a - q < h := by
      apply lt_of_mul_lt_mul_right _ hP.le
      linarith
    have habs : |a - q| ≤ h := abs_le.mpr ⟨ha1, ha2.le⟩
    have hy := abs_le.mp (hnear.trans habs)
    rw [Int.floor_eq_iff]
    constructor
    · have := mul_le_mul_of_nonneg_right hy.1 hP.le
      linarith
    · rcases lt_or_eq_of_le hy.2 with hlt | heq
      · have := mul_lt_mul_of_pos_right hlt hP
        linarith
      · exfalso
        have hge : h ≤ |a - q| := by
          have := le_abs_self (roundToDouble q - q)
          linarith
        have haq : q - a = h := by
          rcases abs_cases (a - q) with ⟨h3, _⟩ | ⟨h3, _⟩
          · rw [h3] at hge; linarith
          · rw [h3] at hge; linarith
        exact tie_impossible a n d ha hq heq haq

theorem roundHalfEven_nonneg (t : ℚ) (h : 0 ≤ t) : 0 ≤ roundHalfEven t := by
  have hf : 0 ≤ ⌊t⌋ := Int.floor_nonneg.mpr h
  unfold roundHalfEven
  split_ifs <;> omega

theorem roundToDouble_nonneg (q : ℚ) (h : 0 ≤ q) : 0 ≤ roundToDouble q := by
  unfold roundToDouble
  have hp := two_zpow_pos (doubleExponent q)
  have h1 : (0 : ℚ) ≤ (roundHalfEven (q / (2 : ℚ) ^ doubleExponent q) : ℚ) := by
    exact_mod_cast roundHalfEven_nonneg _ (div_nonneg h hp.le)
  exact mul_nonneg h1 hp.le

theorem roundHalfEven_eq_of_abs_lt (t : ℚ) (m : ℤ) (h : |(m : ℚ) - t| < 1 / 2) :
    roundHalfEven t = m := by
  have h1 := roundHalfEven_nearest t m
  have h2 : |((roundHalfEven t - m : ℤ) : ℚ)| < 1 := by
    push_cast
    have h3 := abs_sub_le (roundHalfEven t : ℚ) t m
    rw [abs_sub_comm t (m : ℚ)] at h3
    linarith
  have hz : |roundHalfEven t - m| < 1 := by exact_mod_cast h2
  have := Int.abs_lt_one_iff.mp hz
  omega

theorem doubleExponent_eq (q : ℚ) (k : ℤ) (h1 : (2 : ℚ) ^ k ≤ q) (h2 : q < (2 : ℚ) ^ (k + 1))
    (hk : -1022 ≤ k) : doubleExponent q = k - 52 := by
  have hq : 0 < q := lt_of_lt_of_le (two_zpow_pos k) h1
  have hlog : Int.log 2 q = k := by
    apply le_antisymm
    · have := (Int.lt_zpow_iff_log_lt (b := 2) (by norm_num) hq).mp (by simpa using h2)
      omega
    · exact (Int.zpow_le_iff_le_log (b := 2) (by norm_num) hq).mp (by simpa using h1)
  unfold doubleExponent
  rw [hlog]
  exact max_eq_left (by omega)

theorem roundToDouble_eq (q : ℚ) (k m : ℤ) (h1 : (2 : ℚ) ^ k ≤ q) (h2 : q < (2 : ℚ) ^ (k + 1))
    (hk : -1022 ≤ k) (hm : |(m : ℚ) - q / (2 : ℚ) ^ (k - 52)| < 1 / 2) :
    roundToDouble q = m * (2 : ℚ) ^ (k - 52) := by
  unfold roundToDouble
  rw [doubleExponent_eq q k h1 h2 hk, roundHalfEven_eq_of_abs_lt _ m hm]

theorem isDouble_abs (v : ℚ) (h : IsDouble v) : IsDouble |v| := by
  rcases le_total 0 v with h0 | h0
  · rwa [abs_of_nonneg h0]
  · rw [abs_of_nonpos h0]
    obtain ⟨m, e, hm, he1, he2, rfl⟩ := h
    exact ⟨-m, e, by rwa [abs_neg], he1, he2, by push_cast; ring⟩

theorem truncDecimals_of_large (decimals : ℕ) (x : JSNumber) (h : 100 < decimals) :
    truncDecimals decimals x = none := by
  simp [truncDecimals, toFixed, h]

theorem truncDecimals_nan (decimals : ℕ) (h : decimals ≤ 100) :
    truncDecimals decimals .nan = some .nan := by
  simp [truncDecimals, toFixed, not_lt.mpr h, parseFloat]

theorem truncDecimals_infinity (decimals : ℕ) (negative : Bool) (h : decimals ≤ 100) :
    truncDecimals decimals (.infinity negative) = some (.infinity negative) := by
  simp [truncDecimals, toFixed, not_lt.mpr h, parseFloat]

theorem truncDecimals_finite_large (decimals : ℕ) (v : ℚ) (h : decimals ≤ 100)
    (hv : (10 : ℚ) ^ 21 ≤ |v|) :
    truncDecimals decimals (.finite v) = some (.finite v) := by
  simp [truncDecimals, toFixed, not_lt.mpr h, hv, parseFloat]

theorem toNat_floor_cast (a : ℚ) (d : ℕ) (h0 : 0 ≤ a) :
    ((⌊a * (10 : ℚ) ^ d + 1 / 2⌋.toNat : ℕ) : ℚ) = ((⌊a * (10 : ℚ) ^ d + 1 / 2⌋ : ℤ) : ℚ) := by
  have hn : 0 ≤ ⌊a * (10 : ℚ) ^ d + 1 / 2⌋ := Int.floor_nonneg.mpr (by positivity)
  have := Int.toNat_of_nonneg hn
  exact_mod_cast this

theorem no_overflow (a : ℚ) (d : ℕ) (h0 : 0 ≤ a) (ha : a < (10 : ℚ) ^ 21) :
    ¬ overflowThreshold ≤ ((⌊a * (10 : ℚ) ^ d + 1 / 2⌋.toNat : ℕ) : ℚ) / (10 : ℚ) ^ d := by
  have hP : (1 : ℚ) ≤ (10 : ℚ) ^ d := one_le_pow₀ (by norm_num)
  have hP0 : (0 : ℚ) < (10 : ℚ) ^ d := by positivity
  have hn1 : ((⌊a * (10 : ℚ) ^ d + 1 / 2⌋ : ℤ) : ℚ) ≤ a * (10 : ℚ) ^ d + 1 / 2 := Int.floor_le _
  rw [toNat_floor_cast a d h0, not_le, div_lt_iff₀ hP0]
  have hbig : (10 : ℚ) ^ 21 + 1 ≤ overflowThreshold := by
    unfold overflowThreshold
    norm_num
  nlinarith

theorem truncDecimals_finite_small (decimals : ℕ) (v : ℚ) (h : decimals ≤ 100)
    (hv : ¬ (10 : ℚ) ^ 21 ≤ |v|) :
    truncDecimals decimals (.finite v) =
      some (.finite ((if v < 0 then -1 else 1) *
        roundToDouble (((⌊|v| * (10 : ℚ) ^ decimals + 1 / 2⌋.toNat : ℕ) : ℚ) /
          (10 : ℚ) ^ decimals))) := by
  have hno := no_overflow |v| decimals (abs_nonneg v) (not_le.mp hv)
  simp only [truncDecimals, toFixed, not_lt.mpr h, if_false, hv, Option.map_some', parseFloat,
    hno, decide_eq_true_eq]

/-- On a double, `truncDecimals` returns a value on which it returns that value
again. -/
theorem truncDecimals_finite_idempotent (decimals : ℕ) (v : ℚ) (h : decimals ≤ 100)
    (hv : IsDouble v) :
    ∃ w, truncDecimals decimals (.finite v) = some (.finite w) ∧
      truncDecimals decimals (.finite w) = some (.finite w) := by
  by_cases hbig : (10 : ℚ) ^ 21 ≤ |v|
  · exact ⟨v, truncDecimals_finite_large decimals v h hbig,
      truncDecimals_finite_large decimals v h hbig⟩
  · set q : ℚ := ((⌊|v| * (10 : ℚ) ^ decimals + 1 / 2⌋.toNat : ℕ) : ℚ) / (10 : ℚ) ^ decimals
      with hq
    have hq0 : 0 ≤ q := by rw [hq]; positivity
    have hy0 : 0 ≤ roundToDouble q := roundToDouble_nonneg q hq0
    refine ⟨(if v < 0 then -1 else 1) * roundToDouble q,
      truncDecimals_finite_small decimals v h hbig, ?_⟩
    set w : ℚ := (if v < 0 then -1 else 1) * roundToDouble q with hw
    have habs : |w| = roundToDouble q := by
      rw [hw]
      split_ifs
      · rw [neg_one_mul, abs_neg, abs_of_nonneg hy0]
      · rw [one_mul, abs_of_nonneg hy0]
    by_cases hbig2 : (10 : ℚ) ^ 21 ≤ |w|
    · exact truncDecimals_finite_large decimals w h hbig2
    · rw [truncDecimals_finite_small decimals w h hbig2, habs]
      have hfloor : ⌊roundToDouble q * (10 : ℚ) ^ decimals + 1 / 2⌋ =
          ⌊|v| * (10 : ℚ) ^ decimals + 1 / 2⌋ := by
        have := floor_roundToDouble |v| decimals (isDouble_abs v hv) (abs_nonneg v)
        rw [← toNat_floor_cast |v| decimals (abs_nonneg v)] at this
        exact this
      rw [hfloor, ← hq]
      congr 2
      by_cases hwneg : w < 0
      · have hvneg : v < 0 := by
          by_contra hc
          rw [hw, if_neg hc, one_mul] at hwneg
          linarith
        rw [if_pos hwneg, hw, if_pos hvneg]
      · rw [if_neg hwneg, one_mul, hw]
        split_ifs with hvneg
        · rw [hw, if_pos hvneg] at hwneg
          have : roundToDouble q = 0 := by linarith
          rw [this]; ring
        · ring

theorem isDouble_zero : IsDouble 0 :=
  ⟨0, 0, by norm_num, by norm_num, by norm_num, by norm_num⟩

theorem isDouble_neg (v : ℚ) (h : IsDouble v) : IsDouble (-v) := by
  obtain ⟨m, e, hm, he1, he2, rfl⟩ := h
  exact ⟨-m, e, by rwa [abs_neg], he1, he2, by push_cast; ring⟩

/-- Below the overflow threshold, the model's nearest double is a double. -/
theorem isDouble_roundToDouble (q : ℚ) (h0 : 0 ≤ q) (hq : q < overflowThreshold) :
    IsDouble (roundToDouble q) := by
  rcases eq_or_lt_of_le h0 with hz | hpos
  · rw [← hz, roundToDouble_zero]
    exact isDouble_zero
  · have hp := two_zpow_pos (doubleExponent q)
    have hlog1 : q < (2 : ℚ) ^ (Int.log 2 q + 1) := by
      have := Int.lt_zpow_succ_log_self (b := 2) (by norm_num) q
      simpa using this
    have hq1024 : q < (2 : ℚ) ^ (1024 : ℤ) := by
      have : overflowThreshold ≤ (2 : ℚ) ^ (1024 : ℤ) := by
        unfold overflowThreshold
        norm_num
      linarith
    have hlog2 : Int.log 2 q < 1024 :=
      (Int.lt_zpow_iff_log_lt (b := 2) (by norm_num) hpos).mp (by simpa using hq1024)
    have he1 : -1074 ≤ doubleExponent q := le_max_right _ _
    have he2 : doubleExponent q ≤ 971 := max_le (by omega) (by norm_num)
    have he3 : Int.log 2 q + 1 ≤ doubleExponent q + 53 := by
      have : Int.log 2 q - 52 ≤ doubleExponent q := le_max_left _ _
      omega
    have ht : q / (2 : ℚ) ^ doubleExponent q < (2 : ℚ) ^ 53 := by
      rw [div_lt_iff₀ hp]
      have h53 : (2 : ℚ) ^ (doubleExponent q + 53) = (2 : ℚ) ^ 53 * (2 : ℚ) ^ doubleExponent q := by
        rw [zpow_add₀ (by norm_num : (2 : ℚ) ≠ 0)]
        norm_num
        ring
      have : (2 : ℚ) ^ (Int.log 2 q + 1) ≤ (2 : ℚ) ^ (doubleExponent q + 53) :=
        zpow_le_zpow_right₀ (by norm_num) he3
      linarith
    have hm0 : 0 ≤ roundHalfEven (q / (2 : ℚ) ^ doubleExponent q) :=
      roundHalfEven_nonneg _ (div_nonneg h0 hp.le)
    have hmt := (abs_le.mp (roundHalfEven_abs (q / (2 : ℚ) ^ doubleExponent q))).2
    have hm53 : roundHalfEven (q / (2 : ℚ) ^ doubleExponent q) ≤ 2 ^ 53 := by
      have : (roundHalfEven (q / (2 : ℚ) ^ doubleExponent q) : ℚ) < 2 ^ 53 + 1 := by linarith
      have : roundHalfEven (q / (2 : ℚ) ^ doubleExponent q) < 2 ^ 53 + 1 := by exact_mod_cast this
      omega
    rcases lt_or_eq_of_le hm53 with hlt | heq
    · exact ⟨roundHalfEven (q / (2 : ℚ) ^ doubleExponent q), doubleExponent q,
        by rw [abs_of_nonneg hm0]; exact hlt, he1, he2, rfl⟩
    · have he4 : doubleExponent q ≠ 971 := by
        intro h971
        rw [heq, h971] at hmt
        rw [h971] at hp
        have hq2 : ((2 : ℚ) ^ 53 - 1 / 2) * (2 : ℚ) ^ (971 : ℤ) ≤ q := by
          have h3 : (2 : ℚ) ^ 53 - 1 / 2 ≤ q / (2 : ℚ) ^ (971 : ℤ) := by
            push_cast at hmt
            linarith
          exact (le_div_iff₀ hp).mp h3
        have : ((2 : ℚ) ^ 53 - 1 / 2) * (2 : ℚ) ^ (971 : ℤ) = overflowThreshold := by
          unfold overflowThreshold
          norm_num
        linarith
      refine ⟨2 ^ 52, doubleExponent q + 1, by norm_num, by omega, by omega, ?_⟩
      unfold roundToDouble
      rw [heq, zpow_add₀ (by norm_num : (2 : ℚ) ≠ 0)]
      push_cast
      ring

theorem truncDecimals_eval (d : ℕ) (v : ℚ) (n : ℕ) (k m : ℤ) (hd : d ≤ 100) (hv0 : 0 ≤ v)
    (hv : v < (10 : ℚ) ^ 21) (hn : ⌊v * (10 : ℚ) ^ d + 1 / 2⌋ = (n : ℤ))
    (h1 : (2 : ℚ) ^ k ≤ (n : ℚ) / (10 : ℚ) ^ d) (h2 : (n : ℚ) / (10 : ℚ) ^ d < (2 : ℚ) ^ (k + 1))
    (hk : -1022 ≤ k)
    (hm : |(m : ℚ) - (n : ℚ) / (10 : ℚ) ^ d / (2 : ℚ) ^ (k - 52)| < 1 / 2) :
    truncDecimals d (.finite v) = some (.finite (m * (2 : ℚ) ^ (k - 52))) := by
  have habs : |v| = v := abs_of_nonneg hv0
  rw [truncDecimals_finite_small d v hd (by rw [habs]; exact not_le.mpr hv), habs, hn,
    Int.toNat_natCast, if_neg (not_lt.mpr hv0), one_mul, roundToDouble_eq _ k m h1 h2 hk hm]

theorem truncDecimals_eval_zero (d : ℕ) (v : ℚ) (hd : d ≤ 100) (hv0 : 0 ≤ v)
    (hv : v < (10 : ℚ) ^ 21) (hn : ⌊v * (10 : ℚ) ^ d + 1 / 2⌋ = 0) :
    truncDecimals d (.finite v) = some (.finite 0) := by
  have habs : |v| = v := abs_of_nonneg hv0
  rw [truncDecimals_finite_small d v hd (by rw [habs]; exact not_le.mpr hv), habs, hn]
  simp [roundToDouble_zero]

theorem truncDecimals_two_double_100_456 :
    truncDecimals 2 (.finite double_100_456) = some (.finite double_100_46) := by
  rw [truncDecimals_eval 2 double_100_456 10046 6 7069244040088125 (by norm_num)
    (by norm_num [double_100_456]) (by norm_num [double_100_456])
    (by rw [Int.floor_eq_iff]; constructor <;> norm_num [double_100_456])
    (by norm_num) (by norm_num) (by norm_num)
    (by rw [abs_lt]; constructor <;> norm_num)]
  norm_num [double_100_46]

theorem truncDecimals_two_decimal_100_456 :
    truncDecimals 2 (.finite (100456 / 1000)) = some (.finite double_100_46) := by
  rw [truncDecimals_eval 2 (100456 / 1000) 10046 6 7069244040088125 (by norm_num)
    (by norm_num) (by norm_num)
    (by rw [Int.floor_eq_iff]; constructor <;> norm_num)
    (by norm_num) (by norm_num) (by norm_num)
    (by rw [abs_lt]; constructor <;> norm_num)]
  norm_num [double_100_46]

theorem truncDecimals_two_one : truncDecimals 2 (.finite 1) = some (.finite 1) := by
  rw [truncDecimals_eval 2 1 100 0 (2 ^ 52) (by norm_num) (by norm_num) (by norm_num)
    (by rw [Int.floor_eq_iff]; constructor <;> norm_num)
    (by norm_num) (by norm_num) (by norm_num)
    (by rw [abs_lt]; constructor <;> norm_num)]
  norm_num

theorem truncDecimals_two_double_0_0005 :
    truncDecimals 2 (.finite double_0_0005) = some (.finite 0) :=
  truncDecimals_eval_zero 2 double_0_0005 (by norm_num) (by norm_num [double_0_0005])
    (by norm_num [double_0_0005])
    (by rw [Int.floor_eq_iff]; constructor <;> norm_num [double_0_0005])

/-- Two round trips through the decimal string: the double written `1.005` lies
below `1.005` and becomes `1` at two decimals, and the double written `0.001` is
read back as itself at three decimals. -/
theorem truncDecimals_round_trips :
    truncDecimals 2 (.finite double_1_005) = some (.finite 1) ∧
    truncDecimals 3 (.finite double_0_001) = some (.finite double_0_001) := by
  constructor
  · rw [truncDecimals_eval 2 double_1_005 100 0 (2 ^ 52) (by norm_num)
      (by norm_num [double_1_005]) (by norm_num [double_1_005])
      (by rw [Int.floor_eq_iff]; constructor <;> norm_num [double_1_005])
      (by norm_num) (by norm_num) (by norm_num)
      (by rw [abs_lt]; constructor <;> norm_num)]
    norm_num
  · rw [truncDecimals_eval 3 double_0_001 1 (-10) 4611686018427388 (by norm_num)
      (by norm_num [double_0_001]) (by norm_num [double_0_001])
      (by rw [Int.floor_eq_iff]; constructor <;> norm_num [double_0_001])
      (by norm_num) (by norm_num) (by norm_num)
      (by rw [abs_lt]; constructor <;> norm_num)]
    norm_num [double_0_001]

theorem isDouble_double_100_456 : IsDouble double_100_456 :=
  ⟨7068962565111415, -46, by norm_num, by norm_num, by norm_num, by norm_num [double_100_456]⟩

/-- C4 (the code at the failing input): with two decimals, `truncDecimals` turns
`100.456` into `100.46`, both for the double nearest to that decimal and for the
exact decimal: the value is rounded to the nearest hundredth and read back as
the double nearest to `100.46`, its magnitude grows, and it is not the
truncation `100.45`, neither as a decimal nor as the double nearest to it. -/
theorem truncDecimals_rounds_100_456 :
    truncDecimals 2 (.finite double_100_456) = some (.finite double_100_46) ∧
    truncDecimals 2 (.finite (100456 / 1000)) = some (.finite double_100_46) ∧
    |(100456 / 1000 : ℚ)| < |double_100_46| ∧
    |double_100_456| < |double_100_46| ∧
    truncDecimals 2 (.finite (100456 / 1000)) ≠ some (.finite (10045 / 100)) ∧
    truncDecimals 2 (.finite double_100_456) ≠ some (.finite double_100_45) ∧
    IsDouble double_100_456 := by
  refine ⟨truncDecimals_two_double_100_456, truncDecimals_two_decimal_100_456, ?_, ?_, ?_, ?_,
    isDouble_double_100_456⟩
  · rw [abs_of_pos (by norm_num), abs_of_pos (by norm_num [double_100_46])]
    norm_num [double_100_46]
  · rw [abs_of_pos (by norm_num [double_100_456]), abs_of_pos (by norm_num [double_100_46])]
    norm_num [double_100_456, double_100_46]
  · rw [truncDecimals_two_decimal_100_456]
    simp only [ne_eq, Option.some.injEq, JSNumber.finite.injEq]
    norm_num [double_100_46]
  · rw [truncDecimals_two_double_100_456]
    simp only [ne_eq, Option.some.injEq, JSNumber.finite.injEq]
    norm_num [double_100_46, double_100_45]

/-- C5 (as amended): for at most 100 decimals and every number `x` (`NaN`, an
infinity or a finite double), `truncDecimals` returns a number `v`, itself
`NaN`, an infinity or a finite double, and applied to `v` it returns `v` again.
At `x = NaN` the value `v` is `NaN`. -/
theorem truncDecimals_idempotent (decimals : ℕ) (x : JSNumber) (hd : decimals ≤ 100)
    (hx : x.IsDouble) :
    ∃ v, truncDecimals decimals x = some v ∧ v.IsDouble ∧
      truncDecimals decimals v = some v ∧ (x = .nan → v = .nan) := by
  cases x with
  | nan =>
    exact ⟨.nan, truncDecimals_nan decimals hd, trivial, truncDecimals_nan decimals hd,
      fun _ => rfl⟩
  | infinity negative =>
    exact ⟨.infinity negative, truncDecimals_infinity decimals negative hd, trivial,
      truncDecimals_infinity decimals negative hd, fun h => by cases h⟩
  | finite v =>
    obtain ⟨w, h1, h2⟩ := truncDecimals_finite_idempotent decimals v hd hx
    refine ⟨.finite w, h1, ?_, h2, fun h => by cases h⟩
    -- the value returned is a double
    by_cases hbig : (10 : ℚ) ^ 21 ≤ |v|
    · rw [truncDecimals_finite_large decimals v hd hbig] at h1
      cases h1
      exact hx
    · rw [truncDecimals_finite_small decimals v hd hbig] at h1
      cases h1
      have hdbl := isDouble_roundToDouble _
        (by positivity : (0 : ℚ) ≤ ((⌊|v| * (10 : ℚ) ^ decimals + 1 / 2⌋.toNat : ℕ) : ℚ) /
          (10 : ℚ) ^ decimals)
        (not_le.mp (no_overflow |v| decimals (abs_nonneg v) (not_le.mp hbig)))
      show IsDouble _
      split_ifs
      · rw [neg_one_mul]
        exact isDouble_neg _ hdbl
      · rw [one_mul]
        exact hdbl

/-- C5 (witness): two decimals, on the double nearest to `100.456` and on
`NaN`. -/
theorem truncDecimals_idempotent_witness :
    (∃ v, truncDecimals 2 (.finite double_100_456) = some v ∧ v.IsDouble ∧
      truncDecimals 2 v = some v ∧ (JSNumber.finite double_100_456 = .nan → v = .nan)) ∧
    (∃ v, truncDecimals 2 .nan = some v ∧ v.IsDouble ∧
      truncDecimals 2 v = some v ∧ (JSNumber.nan = .nan → v = .nan)) :=
  ⟨truncDecimals_idempotent 2 (.finite double_100_456) (by norm_num) isDouble_double_100_456,
    truncDecimals_idempotent 2 .nan (by norm_num) trivial⟩

/-- C5 (counterexample): with 101 decimals `toFixed` throws a RangeError, so
`truncDecimals` returns no value at all on the double `1`, and there is nothing
for the claimed equation to hold of. -/
theorem truncDecimals_idempotent_counterexample :
    JSNumber.IsDouble (.finite 1) ∧
    truncDecimals 101 (.finite 1) = none ∧
    ¬ ∃ v, truncDecimals 101 (.finite 1) = some v ∧ truncDecimals 101 v = some v := by
  have h : truncDecimals 101 (.finite 1) = none :=
    truncDecimals_of_large 101 (.finite 1) (by norm_num)
  refine ⟨⟨1, 0, by norm_num, by norm_num, by norm_num, by norm_num⟩, h, ?_⟩
  rintro ⟨v, hv, _⟩
  rw [h] at hv
  cases hv

theorem invocations_append {ρ : Type} (a b : List (Event ρ)) :
    invocations (a ++ b) = invocations a ++ invocations b := by
  induction a with
  | nil => rfl
  | cons e es ih => cases e <;> simp [invocations, ih]

theorem callbacks_append {ρ : Type} (a b : List (Event ρ)) :
    callbacks (a ++ b) = callbacks a ++ callbacks b := by
  induction a with
  | nil => rfl
  | cons e es ih => cases e <;> simp [callbacks, ih]

theorem invocations_backoffEvents {ρ : Type} (e : Err) :
    invocations (backoffEvents e : List (Event ρ)) = [] := by
  unfold backoffEvents
  split <;> rfl

theorem callbacks_backoffEvents {ρ : Type} (e : Err) :
    callbacks (backoffEvents e : List (Event ρ)) = [] := by
  unfold backoffEvents
  split <;> rfl

theorem isRetryable_iff {ρ : Type} (G : Globals) (out : Outcome ρ) :
    isRetryable G out = true ↔
      ∃ e, out.err = some e ∧ e.notFatal = true ∧
        e.result ≠ some G.CUSTOM_OK_RESPONSE.result := by
  unfold isRetryable
  cases out.err <;> simp

theorem attempt_ok {ρ : Type} (G : Globals) (options : Options) (checkFn : ℕ → Outcome ρ)
    (ts : List ℚ) (n : ℕ) (h : (checkFn n).err = none) :
    attempt G options checkFn ts n =
      [Event.checkFn n,
        Event.callback (.response G.DEFAULT_OK_RESPONSE) (some (checkFn n).result)] := by
  cases ts <;> simp [attempt, h]

theorem attempt_exhausted {ρ : Type} (G : Globals) (options : Options)
    (checkFn : ℕ → Outcome ρ) (ts : List ℚ) (n : ℕ) (e : Err)
    (h : (checkFn n).err = some e) (hc : e.result ≠ some G.CUSTOM_OK_RESPONSE.result)
    (hn : options.retries < n) :
    attempt G options checkFn ts n =
      [Event.checkFn n, Event.callback (.response G.DEFAULT_FAIL_RESPONSE) none] := by
  cases ts <;> simp [attempt, h, hc, hn]

theorem attempt_retry {ρ : Type} (G : Globals) (options : Options)
    (checkFn : ℕ → Outcome ρ) (t : ℚ) (ts : List ℚ) (n : ℕ) (e : Err)
    (h : (checkFn n).err = some e) (hc : e.result ≠ some G.CUSTOM_OK_RESPONSE.result)
    (hn : n ≤ options.retries) (hf : e.notFatal = true) :
    attempt G options checkFn (t :: ts) n =
      Event.checkFn n :: (backoffEvents e ++
        Event.setTimeout t :: attempt G options checkFn ts (n + 1)) := by
  rw [attempt]
  simp [h, hc, not_lt.mpr hn, hf, backoffEvents]

theorem attempt_fatal {ρ : Type} (G : Globals) (options : Options)
    (checkFn : ℕ → Outcome ρ) (ts : List ℚ) (n : ℕ) (e : Err)
    (h : (checkFn n).err = some e) (hc : e.result ≠ some G.CUSTOM_OK_RESPONSE.result)
    (hn : n ≤ options.retries) (hf : e.notFatal = false) :
    attempt G options checkFn ts n = [Event.checkFn n] := by
  cases ts <;> simp [attempt, h, hc, not_lt.mpr hn, hf]

theorem length_timeouts (options : Options) : (timeouts options).length = options.retries := by
  simp [timeouts]

theorem drop_timeouts (options : Options) (i : ℕ) (h : i < options.retries) :
    (timeouts options).drop i =
      computedDelay options (i + 1) :: (timeouts options).drop (i + 1) := by
  have hlen : i < (timeouts options).length := by rw [length_timeouts]; exact h
  rw [List.drop_eq_getElem_cons hlen]
  simp [timeouts]

/-- While the outcomes are retryable failures and retries remain, the run is a
prefix holding one invocation per attempt and no callback, followed by the run
of the next attempt on the remaining timeouts. -/
theorem attempt_prefix {ρ : Type} (G : Globals) (options : Options)
    (checkFn : ℕ → Outcome ρ) :
    ∀ (m : ℕ) (ts : List ℚ) (n : ℕ), m ≤ ts.length → n + m ≤ options.retries + 1 →
      (∀ i, n ≤ i → i < n + m → isRetryable G (checkFn i) = true) →
      ∃ pre, attempt G options checkFn ts n =
          pre ++ attempt G options checkFn (ts.drop m) (n + m) ∧
        invocations pre = List.range' n m ∧ callbacks pre = [] := by
  intro m
  induction m with
  | zero =>
    intro ts n _ _ _
    exact ⟨[], by simp, rfl, rfl⟩
  | succ m ih =>
    intro ts n hlen hret hall
    cases ts with
    | nil => simp at hlen
    | cons t rest =>
      obtain ⟨e, he, hf, hc⟩ := (isRetryable_iff G (checkFn n)).mp (hall n le_rfl (by omega))
      have hn : n ≤ options.retries := by omega
      obtain ⟨pre, hpre, hinv, hcb⟩ := ih rest (n + 1)
        (by simpa using hlen) (by omega) (fun i h1 h2 => hall i (by omega) (by omega))
      refine ⟨Event.checkFn n :: (backoffEvents e ++ Event.setTimeout t :: pre), ?_, ?_, ?_⟩
      · rw [attempt_retry G options checkFn t rest n e he hc hn hf, hpre]
        simp [Nat.add_assoc, Nat.add_comm 1 m]
      · simp [invocations, invocations_append, invocations_backoffEvents, hinv,
          List.range'_succ]
      · simp [callbacks, callbacks_append, callbacks_backoffEvents, hcb]

/-- C6: with `retries = r` (the caller's options, or the default 30 when none are
passed) and an operation whose every attempt is a retryable failure,
`retryInstance` invokes the operation exactly `r + 1` times, at attempts
`1, ..., r + 1`, and calls the callback exactly once, as the last effect of the
run, with `DEFAULT_FAIL_RESPONSE` and no second argument: the operation's own
error is not passed on. -/
theorem retryInstance_exhausts {ρ : Type} (G : Globals) (options : Option Options)
    (checkFn : ℕ → Outcome ρ)
    (hall : ∀ n, isRetryable G (checkFn n) = true) :
    invocations (retryInstance G options checkFn) =
        List.range' 1 ((options.getD defaultOptions).retries + 1) ∧
    (invocations (retryInstance G options checkFn)).length =
        (options.getD defaultOptions).retries + 1 ∧
    callbacks (retryInstance G options checkFn) =
        [(Status.response G.DEFAULT_FAIL_RESPONSE, none)] ∧
    (retryInstance G options checkFn).getLast? =
        some (Event.callback (Status.response G.DEFAULT_FAIL_RESPONSE) none) := by
  set o := options.getD defaultOptions with ho
  obtain ⟨pre, hpre, hinv, hcb⟩ := attempt_prefix G o checkFn o.retries (timeouts o) 1
    (by rw [length_timeouts]) (by omega) (fun i _ _ => hall i)
  obtain ⟨e, he, _, hc⟩ := (isRetryable_iff G (checkFn (1 + o.retries))).mp (hall _)
  have hlast := attempt_exhausted G o checkFn ((timeouts o).drop o.retries) (1 + o.retries) e
    he hc (by omega)
  have hrun : retryInstance G options checkFn =
      pre ++ [Event.checkFn (1 + o.retries),
        Event.callback (Status.response G.DEFAULT_FAIL_RESPONSE) none] := by
    unfold retryInstance
    simp only [← ho]
    rw [hpre, hlast]
  have hinvs : invocations (retryInstance G options checkFn) =
      List.range' 1 (o.retries + 1) := by
    rw [hrun, invocations_append, hinv, List.range'_concat]
    simp [invocations]
  refine ⟨hinvs, ?_, ?_, ?_⟩
  · rw [hinvs, List.length_range']
  · rw [hrun, callbacks_append, hcb]
    simp [callbacks]
  · rw [hrun]
    simp

/-- C6 (witness): three retries give four invocations and no retries give one,
each run ending in the single failure callback. -/
theorem retryInstance_exhausts_witness :
    (∀ n, isRetryable sampleGlobals (alwaysTransient n) = true) ∧
    invocations (retryInstance sampleGlobals (some threeRetries) alwaysTransient) =
      [1, 2, 3, 4] ∧
    invocations (retryInstance sampleGlobals (some noRetries) alwaysTransient) = [1] ∧
    callbacks (retryInstance sampleGlobals (some threeRetries) alwaysTransient) =
      [(Status.response sampleGlobals.DEFAULT_FAIL_RESPONSE, none)] ∧
    callbacks (retryInstance sampleGlobals (some noRetries) alwaysTransient) =
      [(Status.response sampleGlobals.DEFAULT_FAIL_RESPONSE, none)] :=
  ⟨fun _ => rfl,
    (retryInstance_exhausts sampleGlobals (some threeRetries) alwaysTransient
      (fun _ => rfl)).1,
    (retryInstance_exhausts sampleGlobals (some noRetries) alwaysTransient
      (fun _ => rfl)).1,
    (retryInstance_exhausts sampleGlobals (some threeRetries) alwaysTransient
      (fun _ => rfl)).2.2.1,
    (retryInstance_exhausts sampleGlobals (some noRetries) alwaysTransient
      (fun _ => rfl)).2.2.1⟩

theorem retryInstance_fatal_first {ρ : Type} (G : Globals) (options : Option Options)
    (checkFn : ℕ → Outcome ρ) (hr : 1 ≤ (options.getD defaultOptions).retries)
    (hfatal : isFatal G (checkFn 1) = true) :
    retryInstance G options checkFn = [Event.checkFn 1] := by
  unfold isFatal at hfatal
  cases he : (checkFn 1).err with
  | none => simp [he] at hfatal
  | some e =>
    simp only [he, Bool.and_eq_true, Bool.not_eq_true', decide_eq_true_eq] at hfatal
    exact attempt_fatal G _ checkFn _ 1 e he hfatal.2 hr hfatal.1

/-- C7 (the code at the failing input): under a policy with three retries, an
operation whose first attempt fails with a fatal error is invoked once and
`retryInstance` does nothing more: no further attempt, and no call of the
callback at all. Only under a policy without retries does the same failure
reach the callback, as `DEFAULT_FAIL_RESPONSE`. -/
theorem retryInstance_fatal_no_callback :
    isFatal sampleGlobals (alwaysFatal 1) = true ∧
    retryInstance sampleGlobals (some threeRetries) alwaysFatal = [Event.checkFn 1] ∧
    callbacks (retryInstance sampleGlobals (some threeRetries) alwaysFatal) = [] ∧
    retryInstance sampleGlobals none alwaysFatal = [Event.checkFn 1] ∧
    retryInstance sampleGlobals (some noRetries) alwaysFatal =
      [Event.checkFn 1,
        Event.callback (Status.response sampleGlobals.DEFAULT_FAIL_RESPONSE) none] := by
  have h3 : retryInstance sampleGlobals (some threeRetries) alwaysFatal = [Event.checkFn 1] :=
    retryInstance_fatal_first sampleGlobals (some threeRetries) alwaysFatal
      (by decide) (by decide)
  refine ⟨by decide, h3, ?_, ?_, ?_⟩
  · rw [h3]; rfl
  · exact retryInstance_fatal_first sampleGlobals none alwaysFatal (by decide) (by decide)
  · exact attempt_exhausted sampleGlobals noRetries alwaysFatal _ 1 fatalErr rfl
      (by decide) (by decide)

theorem attempt_head {ρ : Type} (G : Globals) (options : Options) (checkFn : ℕ → Outcome ρ)
    (ts : List ℚ) (n : ℕ) :
    ∃ post, attempt G options checkFn ts n = Event.checkFn n :: post := by
  cases ts <;> exact ⟨_, by rw [attempt]⟩

/-- C8 (as amended): when attempt `n ≤ retries` is reached and its outcome is a
retryable failure carrying an explicit delay `d`, `retryInstance` arms a timer
of `d`, and when it fires `operation.retry` arms a second timer of the delay
the policy computes for that retry; attempt `n + 1` starts only after both, so
the wait before it is the explicit delay plus the computed delay. -/
theorem retryInstance_explicit_delay_then_computed {ρ : Type} (G : Globals)
    (options : Option Options) (checkFn : ℕ → Outcome ρ) (n : ℕ) (e : Err) (d : ℚ)
    (hn1 : 1 ≤ n) (hn : n ≤ (options.getD defaultOptions).retries)
    (hall : ∀ i, 1 ≤ i → i < n → isRetryable G (checkFn i) = true)
    (he : (checkFn n).err = some e) (hf : e.notFatal = true)
    (hc : e.result ≠ some G.CUSTOM_OK_RESPONSE.result)
    (hd : e.backoffDelay = some d) (hd0 : d ≠ 0) :
    ∃ pre post, retryInstance G options checkFn =
        pre ++ Event.checkFn n :: Event.setTimeout d ::
          Event.setTimeout (computedDelay (options.getD defaultOptions) n) ::
          Event.checkFn (n + 1) :: post ∧
      invocations pre = List.range' 1 (n - 1) ∧ callbacks pre = [] := by
  set o := options.getD defaultOptions with ho
  obtain ⟨pre, hpre, hinv, hcb⟩ := attempt_prefix G o checkFn (n - 1) (timeouts o) 1
    (by rw [length_timeouts]; omega) (by omega) (fun i h1 h2 => hall i h1 (by omega))
  have hn' : 1 + (n - 1) = n := by omega
  rw [hn'] at hpre
  have hdrop := drop_timeouts o (n - 1) (by omega)
  rw [Nat.sub_add_cancel hn1] at hdrop
  obtain ⟨post, hpost⟩ := attempt_head G o checkFn ((timeouts o).drop n) (n + 1)
  refine ⟨pre, post, ?_, hinv, hcb⟩
  unfold retryInstance
  simp only [← ho]
  rw [hpre, hdrop, attempt_retry G o checkFn _ _ n e he hc hn hf, hpost]
  simp [backoffEvents, hd, truthyDelay, hd0]

/-- C8 (witness): the default policy and an operation whose first failure carries
an explicit delay of 500 ms. -/
theorem retryInstance_explicit_delay_then_computed_witness :
    ∃ pre post, retryInstance sampleGlobals none delayedThenOk =
        pre ++ Event.checkFn 1 :: Event.setTimeout 500 ::
          Event.setTimeout (computedDelay defaultOptions 1) ::
          Event.checkFn 2 :: post ∧
      invocations pre = List.range' 1 (1 - 1) ∧ callbacks pre = [] :=
  retryInstance_explicit_delay_then_computed sampleGlobals none delayedThenOk 1 delayedErr 500
    (by decide) (by decide) (fun i h1 h2 => by omega) rfl rfl (by decide) rfl (by norm_num)

/-- C8 (counterexample): under the default policy the delay computed for the
first retry is 1000 ms; an operation whose first failure carries an explicit
delay of 500 ms is run again only after a timer of 500 ms and then a timer of
1000 ms, that is after 1500 ms and not after 500 ms. -/
theorem retryInstance_explicit_delay_counterexample :
    isRetryable sampleGlobals (delayedThenOk 1) = true ∧
    delayedErr.backoffDelay = some 500 ∧
    computedDelay defaultOptions 1 = 1000 ∧
    retryInstance sampleGlobals none delayedThenOk =
      [Event.checkFn 1, Event.setTimeout 500, Event.setTimeout 1000, Event.checkFn 2,
        Event.callback (Status.response sampleGlobals.DEFAULT_OK_RESPONSE) (some ())] ∧
    (500 : ℚ) + 1000 ≠ 500 := by
  have hcd : computedDelay defaultOptions 1 = 1000 := by
    norm_num [computedDelay, defaultOptions]
  have hdrop := drop_timeouts defaultOptions 0 (by decide)
  rw [List.drop_zero] at hdrop
  refine ⟨by decide, rfl, hcd, ?_, by norm_num⟩
  unfold retryInstance
  simp only [Option.getD_none]
  rw [hdrop, attempt_retry sampleGlobals defaultOptions delayedThenOk _ _ 1 delayedErr rfl
    (by decide) (by decide) rfl, attempt_ok sampleGlobals defaultOptions delayedThenOk _ 2 rfl,
    hcd]
  simp [backoffEvents, delayedErr, truthyDelay]

/-- C9: when attempts `1, ..., k - 1` are retryable failures, with
`k - 1 ≤ retries`, and attempt `k` succeeds, `retryInstance` invokes the
operation exactly `k` times, at attempts `1, ..., k`, and calls the callback
exactly once, as the last effect of the run, with `DEFAULT_OK_RESPONSE` and the
payload of attempt `k`; nothing is started after it. -/
theorem retryInstance_succeeds {ρ : Type} (G : Globals) (options : Option Options)
    (checkFn : ℕ → Outcome ρ) (k : ℕ) (hk : 1 ≤ k)
    (hret : k - 1 ≤ (options.getD defaultOptions).retries)
    (hall : ∀ i, 1 ≤ i → i < k → isRetryable G (checkFn i) = true)
    (hok : (checkFn k).err = none) :
    invocations (retryInstance G options checkFn) = List.range' 1 k ∧
    (invocations (retryInstance G options checkFn)).length = k ∧
    callbacks (retryInstance G options checkFn) =
        [(Status.response G.DEFAULT_OK_RESPONSE, some (checkFn k).result)] ∧
    (retryInstance G options checkFn).getLast? =
        some (Event.callback (Status.response G.DEFAULT_OK_RESPONSE)
          (some (checkFn k).result)) := by
  set o := options.getD defaultOptions with ho
  obtain ⟨pre, hpre, hinv, hcb⟩ := attempt_prefix G o checkFn (k - 1) (timeouts o) 1
    (by rw [length_timeouts]; exact hret) (by omega) (fun i h1 h2 => hall i h1 (by omega))
  have hk' : 1 + (k - 1) = k := by omega
  rw [hk'] at hpre
  have hrun : retryInstance G options checkFn =
      pre ++ [Event.checkFn k,
        Event.callback (Status.response G.DEFAULT_OK_RESPONSE) (some (checkFn k).result)] := by
    unfold retryInstance
    simp only [← ho]
    rw [hpre, attempt_ok G o checkFn _ k hok]
  have hinvs : invocations (retryInstance G options checkFn) = List.range' 1 k := by
    rw [hrun, invocations_append, hinv]
    have : List.range' 1 k = List.range' 1 (k - 1 + 1) := by rw [Nat.sub_add_cancel hk]
    rw [this, List.range'_concat]
    simp [invocations, hk']
  refine ⟨hinvs, ?_, ?_, ?_⟩
  · rw [hinvs, List.length_range']
  · rw [hrun, callbacks_append, hcb]
    simp [callbacks]
  · rw [hrun]
    simp

/-- C9 (witness): two retryable failures, then success with payload `7` at the
third attempt, under three retries. -/
theorem retryInstance_succeeds_witness :
    invocations (retryInstance sampleGlobals (some threeRetries) okAtThird) = [1, 2, 3] ∧
    callbacks (retryInstance sampleGlobals (some threeRetries) okAtThird) =
      [(Status.response sampleGlobals.DEFAULT_OK_RESPONSE, some 7)] :=
  ⟨(retryInstance_succeeds sampleGlobals (some threeRetries) okAtThird 3 (by decide)
      (by decide) (fun i h1 h2 => by interval_cases i <;> decide) rfl).1,
    (retryInstance_succeeds sampleGlobals (some threeRetries) okAtThird 3 (by decide)
      (by decide) (fun i h1 h2 => by interval_cases i <;> decide) rfl).2.2.1⟩

theorem truncDecimals_isSome (decimals : ℕ) (x : JSNumber) (h : decimals ≤ 100) :
    ∃ v, truncDecimals decimals x = some v := by
  cases x with
  | nan => exact ⟨_, truncDecimals_nan decimals h⟩
  | infinity negative => exact ⟨_, truncDecimals_infinity decimals negative h⟩
  | finite v =>
    by_cases hbig : (10 : ℚ) ^ 21 ≤ |v|
    · exact ⟨_, truncDecimals_finite_large decimals v h hbig⟩
    · exact ⟨_, truncDecimals_finite_small decimals v h hbig⟩

theorem le_of_truncDecimals_eq_some (decimals : ℕ) (x v : JSNumber)
    (h : truncDecimals decimals x = some v) : decimals ≤ 100 := by
  by_contra hc
  rw [truncDecimals_of_large decimals x (not_le.mp hc)] at h
  cases h

theorem putPosition_of_market (G : Globals) (apiClient : ApiClient) (MARKET pMarket : MarketId)
    (pType : String) (pRate pAmountA pAmountB : JSNumber) (market : Market)
    (rate amount : JSNumber)
    (hm : getMarketConfig apiClient.getExchangeProperties MARKET = some market)
    (hr : truncDecimals market.maxDecimals pRate = some rate)
    (hb : truncDecimals market.maxDecimals pAmountB = some amount) :
    putPosition G apiClient MARKET pMarket pType pRate pAmountA pAmountB =
      if (isValidOrder apiClient.toApi market amount rate).valid then
        if pType = "buy" then [FacadeEvent.buy pMarket.assetA pMarket.assetB rate amount]
        else if pType = "sell" then [FacadeEvent.sell pMarket.assetA pMarket.assetB rate amount]
        else [FacadeEvent.callBack G.DEFAULT_FAIL_RESPONSE]
      else [FacadeEvent.callBack G.DEFAULT_FAIL_RESPONSE] := by
  obtain ⟨amountA, ha⟩ := truncDecimals_isSome market.maxDecimals pAmountA
    (le_of_truncDecimals_eq_some _ _ _ hr)
  unfold putPosition
  simp only [hm, hr, ha, hb]

theorem putPosition_of_throw (G : Globals) (apiClient : ApiClient) (MARKET pMarket : MarketId)
    (pType : String) (pRate pAmountA pAmountB : JSNumber)
    (h : getMarketConfig apiClient.getExchangeProperties MARKET = none ∨
      ∃ market, getMarketConfig apiClient.getExchangeProperties MARKET = some market ∧
        100 < market.maxDecimals) :
    putPosition G apiClient MARKET pMarket pType pRate pAmountA pAmountB =
      [FacadeEvent.callBack G.DEFAULT_FAIL_RESPONSE] := by
  unfold putPosition
  rcases h with h | ⟨market, hm, hd⟩
  · simp only [h]
  · simp only [hm, truncDecimals_of_large _ _ hd]

theorem putPosition_cases (G : Globals) (apiClient : ApiClient) (MARKET pMarket : MarketId)
    (pType : String) (pRate pAmountA pAmountB : JSNumber) :
    putPosition G apiClient MARKET pMarket pType pRate pAmountA pAmountB =
        [FacadeEvent.callBack G.DEFAULT_FAIL_RESPONSE] ∨
      ∃ market rate amount,
        getMarketConfig apiClient.getExchangeProperties MARKET = some market ∧
        truncDecimals market.maxDecimals pRate = some rate ∧
        truncDecimals market.maxDecimals pAmountB = some amount := by
  cases hm : getMarketConfig apiClient.getExchangeProperties MARKET with
  | none => exact Or.inl (putPosition_of_throw _ _ _ _ _ _ _ _ (Or.inl hm))
  | some market =>
    by_cases hd : market.maxDecimals ≤ 100
    · obtain ⟨rate, hr⟩ := truncDecimals_isSome market.maxDecimals pRate hd
      obtain ⟨amount, hb⟩ := truncDecimals_isSome market.maxDecimals pAmountB hd
      exact Or.inr ⟨market, rate, amount, rfl, hr, hb⟩
    · exact Or.inl (putPosition_of_throw _ _ _ _ _ _ _ _
        (Or.inr ⟨market, hm, not_le.mp hd⟩))

/-- C10: in every call of `putPosition`, the connector's `buy` is invoked only
when the active market resolves, the truncations of `pRate` and `pAmountB`
return, `isValidOrder` accepts the order built from the truncated `pAmountB`
and the truncated `pRate` against that market, and the type is "buy"; likewise
`sell` with type "sell"; an accepted order of type "buy" or "sell" does reach
the connector with the truncated rate and amount; when validation rejects the
order the run consists of exactly one call of the callback, with
`DEFAULT_FAIL_RESPONSE`, so neither `buy` nor `sell` is invoked; and the same
single failure callback is the whole run when the market does not resolve or
the truncation throws. -/
theorem putPosition_validates_before_trading (G : Globals) (apiClient : ApiClient)
    (MARKET pMarket : MarketId) (pType : String) (pRate pAmountA pAmountB : JSNumber) :
    (∀ a b r q, FacadeEvent.buy a b r q ∈
          putPosition G apiClient MARKET pMarket pType pRate pAmountA pAmountB →
        ∃ market, getMarketConfig apiClient.getExchangeProperties MARKET = some market ∧
          truncDecimals market.maxDecimals pRate = some r ∧
          truncDecimals market.maxDecimals pAmountB = some q ∧
          (isValidOrder apiClient.toApi market q r).valid = true ∧ pType = "buy") ∧
    (∀ a b r q, FacadeEvent.sell a b r q ∈
          putPosition G apiClient MARKET pMarket pType pRate pAmountA pAmountB →
        ∃ market, getMarketConfig apiClient.getExchangeProperties MARKET = some market ∧
          truncDecimals market.maxDecimals pRate = some r ∧
          truncDecimals market.maxDecimals pAmountB = some q ∧
          (isValidOrder apiClient.toApi market q r).valid = true ∧ pType = "sell") ∧
    (∀ market rate amount,
        getMarketConfig apiClient.getExchangeProperties MARKET = some market →
        truncDecimals market.maxDecimals pRate = some rate →
        truncDecimals market.maxDecimals pAmountB = some amount →
        (isValidOrder apiClient.toApi market amount rate).valid = true →
        (pType = "buy" →
          putPosition G apiClient MARKET pMarket pType pRate pAmountA pAmountB =
            [FacadeEvent.buy pMarket.assetA pMarket.assetB rate amount]) ∧
        (pType = "sell" →
          putPosition G apiClient MARKET pMarket pType pRate pAmountA pAmountB =
            [FacadeEvent.sell pMarket.assetA pMarket.assetB rate amount])) ∧
    (∀ market rate amount,
        getMarketConfig apiClient.getExchangeProperties MARKET = some market →
        truncDecimals market.maxDecimals pRate = some rate →
        truncDecimals market.maxDecimals pAmountB = some amount →
        (isValidOrder apiClient.toApi market amount rate).valid = false →
        putPosition G apiClient MARKET pMarket pType pRate pAmountA pAmountB =
          [FacadeEvent.callBack G.DEFAULT_FAIL_RESPONSE]) ∧
    ((getMarketConfig apiClient.getExchangeProperties MARKET = none ∨
        ∃ market, getMarketConfig apiClient.getExchangeProperties MARKET = some market ∧
          100 < market.maxDecimals) →
        putPosition G apiClient MARKET pMarket pType pRate pAmountA pAmountB =
          [FacadeEvent.callBack G.DEFAULT_FAIL_RESPONSE]) := by
  refine ⟨?_, ?_, ?_, ?_, putPosition_of_throw _ _ _ _ _ _ _ _⟩
  · intro a b r q hmem
    rcases putPosition_cases G apiClient MARKET pMarket pType pRate pAmountA pAmountB with
      h | ⟨market, rate, amount, hm, hr, hb⟩
    · rw [h] at hmem
      simp at hmem
    · rw [putPosition_of_market G apiClient MARKET pMarket pType pRate pAmountA pAmountB
        market rate amount hm hr hb] at hmem
      refine ⟨market, hm, ?_⟩
      split_ifs at hmem with h1 h2 h3 <;> simp at hmem
      obtain ⟨_, _, rfl, rfl⟩ := hmem
      exact ⟨hr, hb, h1, h2⟩
  · intro a b r q hmem
    rcases putPosition_cases G apiClient MARKET pMarket pType pRate pAmountA pAmountB with
      h | ⟨market, rate, amount, hm, hr, hb⟩
    · rw [h] at hmem
      simp at hmem
    · rw [putPosition_of_market G apiClient MARKET pMarket pType pRate pAmountA pAmountB
        market rate amount hm hr hb] at hmem
      refine ⟨market, hm, ?_⟩
      split_ifs at hmem with h1 h2 h3 <;> simp at hmem
      obtain ⟨_, _, rfl, rfl⟩ := hmem
      exact ⟨hr, hb, h1, h3⟩
  · intro market rate amount hm hr hb hv
    rw [putPosition_of_market G apiClient MARKET pMarket pType pRate pAmountA pAmountB
      market rate amount hm hr hb]
    constructor
    · intro hbuy
      simp [hv, hbuy]
    · intro hsell
      simp [hv, hsell]
  · intro market rate amount hm hr hb hv
    rw [putPosition_of_market G apiClient MARKET pMarket pType pRate pAmountA pAmountB
      market rate amount hm hr hb]
    simp [hv]

theorem getMarketConfig_plainClient :
    getMarketConfig plainClient.getExchangeProperties btcUsdtId = some btcUsdt := rfl

/-- C10 (witness): the spec's end-to-end scenario. On BTC/USDT (minimum 0.001, two
decimals) the order of amount 0.0005 at rate 100.456 is rejected and the run is
the single failure callback; the same order with amount 1 is handed to `buy`
with the rate `truncDecimals` produces, 100.46. -/
theorem putPosition_validates_before_trading_witness :
    putPosition sampleGlobals plainClient btcUsdtId btcUsdtId "buy" (.finite double_100_456)
        (.finite 1) (.finite double_0_0005) =
      [FacadeEvent.callBack sampleGlobals.DEFAULT_FAIL_RESPONSE] ∧
    putPosition sampleGlobals plainClient btcUsdtId btcUsdtId "buy" (.finite double_100_456)
        (.finite 1) (.finite 1) =
      [FacadeEvent.buy "BTC" "USDT" (.finite double_100_46) (.finite 1)] := by
  constructor
  · refine (putPosition_validates_before_trading sampleGlobals plainClient btcUsdtId btcUsdtId
      "buy" (.finite double_100_456) (.finite 1) (.finite double_0_0005)).2.2.2.1 btcUsdt
      (.finite double_100_46) (.finite 0) getMarketConfig_plainClient
      truncDecimals_two_double_100_456 truncDecimals_two_double_0_0005 ?_
    rw [isValidOrder_valid]
    have : amountViolated btcUsdt (.finite 0) = true := by
      simp only [amountViolated, btcUsdt, JSNumber.lt, decide_eq_true_eq]
      norm_num [double_0_001]
    simp [this]
  · refine ((putPosition_validates_before_trading sampleGlobals plainClient btcUsdtId btcUsdtId
      "buy" (.finite double_100_456) (.finite 1) (.finite 1)).2.2.1 btcUsdt
      (.finite double_100_46) (.finite 1) getMarketConfig_plainClient
      truncDecimals_two_double_100_456 truncDecimals_two_one ?_).1 rfl
    rw [isValidOrder_valid]
    have : amountViolated btcUsdt (.finite 1) = false := not_lt_one
    simp [this, lotViolated, priceViolated, plainClient]

/-- C2 (counterexample): a `NaN` amount, which is what `putPosition` passes when
`pAmountB` is missing, is accepted on BTC/USDT by a connector without
predicates, with no reason, although `NaN >= 0.001` is false; and `putPosition`
hands that order to `buy`. -/
theorem isValidOrder_valid_iff_counterexample :
    isValidOrder plainApi btcUsdt .nan (.finite double_100_45) =
      { reason := none, valid := true } ∧
    JSNumber.ge .nan btcUsdt.minimalOrder.amount = false ∧
    truncDecimals 2 .nan = some .nan ∧
    putPosition sampleGlobals plainClient btcUsdtId btcUsdtId "buy" (.finite 1) .nan .nan =
      [FacadeEvent.buy "BTC" "USDT" (.finite 1) .nan] := by
  have hv : isValidOrder plainApi btcUsdt .nan (.finite double_100_45) =
      { reason := none, valid := true } := by
    simp [isValidOrder, checkLot, checkPrice, checkAmount, plainApi, truthy, JSNumber.lt]
  refine ⟨hv, rfl, truncDecimals_nan 2 (by norm_num), ?_⟩
  rw [putPosition_of_market sampleGlobals plainClient btcUsdtId btcUsdtId "buy" (.finite 1)
    .nan .nan btcUsdt (.finite 1) .nan getMarketConfig_plainClient truncDecimals_two_one
    (truncDecimals_nan 2 (by norm_num))]
  have : (isValidOrder plainClient.toApi btcUsdt .nan (.finite 1)).valid = true := by
    simp [isValidOrder, checkLot, checkPrice, checkAmount, plainClient, truthy, JSNumber.lt]
  simp [this]
  exact ⟨rfl, rfl⟩

end ExchangeGateway
